import Mathlib

/-!
Verification of the case-assembly and pipeline-execution engine of the
hayabusa-flow repository (`main.py`, `my-previous-runner.py`,
`my-previous-setupcase.py`).

The Python source is shallowly embedded: text is `List Char`, filesystem
state is an explicit association list from paths to byte contents,
numeric table entries and centroid coordinates are `ℚ`, and every
external effect (a spawned OpenFOAM process, the trimesh centroid
computation, interactive disambiguation input) is an explicit parameter
recording only what the code observes of it (an exit status, a possibly
thrown-and-caught result, a chosen index).
-/

namespace HayabusaFlow

/-! ## Character classes (Python `\s`, `\d`, `str.lower`) -/

/-- ASCII whitespace, the characters matched by the regex class `\s`
on the ASCII plane. -/
def isWS (c : Char) : Bool :=
  c == ' ' || c == '\t' || c == '\n' || c == '\r' || c == '\x0b' || c == '\x0c'

/-- ASCII decimal digit, the regex class `\d` on the ASCII plane. -/
def isDigitCh (c : Char) : Bool :=
  '0' ≤ c && c ≤ '9'

/-- ASCII lower-casing of one character (`str.lower` restricted to the
ASCII plane, which covers the component names `FL`, `FR`, `RL`, `RR`,
`mainBody` used by the source). -/
def asciiLower (c : Char) : Char :=
  if 'A' ≤ c && c ≤ 'Z' then Char.ofNat (c.toNat + 32) else c

/-- ASCII lower-casing of a string given as a character list. -/
def lowerStr (s : List Char) : List Char :=
  s.map asciiLower

/-! ## ResultsExtractor (`main.py`, `ResultsExtractor.extract_latest_cd`)

The coefficient file is embedded as `Option (List (List ℚ))`:
`none` stands for a file that is missing, or that `np.loadtxt` failed to
read (the surrounding `try`/`except` catches the raised exception and
the method returns `None`); `some rows` is the parsed numeric table,
one inner list per data row.  A data row shorter than seven columns
makes `latest_row[6]` raise `IndexError`, which the same `except`
catches, so the embedding returns `none` in that case as well. -/

/-- One extracted coefficient sample: the values the source takes from
columns 0, 1, 4, 6 of the chosen row. -/
structure CoeffSample where
  time : ℚ
  cd : ℚ
  cl : ℚ
  cm : ℚ
deriving DecidableEq, Repr

/-- Embedding of `ResultsExtractor.extract_latest_cd`.  A missing or
unreadable file (`none`) and an empty table yield `none`; a one-row
table uses that row; a multi-row table uses the last row; a chosen row
with fewer than 7 columns raises inside the `try`, is caught, and
yields `none`. -/
def extractLatestCd (file : Option (List (List ℚ))) : Option CoeffSample :=
  match file with
  | none => none
  | some rows =>
    match rows.getLast? with
    | none => none
    | some row =>
      if h : 6 < row.length then
        some { time := row.get ⟨0, by omega⟩
               cd := row.get ⟨1, by omega⟩
               cl := row.get ⟨4, by omega⟩
               cm := row.get ⟨6, by omega⟩ }
      else
        none

/-! ## STLFileSelector (`main.py`, `STLFileSelector`) -/

/-- The fixed canonical component set `self.stl_components`. -/
def stlComponents : List (List Char) :=
  ["FL".data, "FR".data, "RL".data, "RR".data, "mainBody".data]

/-- The movable (wheel) component subset tested by
`if component in ["FL", "FR", "RL", "RR"]`. -/
def wheelComponents : List (List Char) :=
  ["FL".data, "FR".data, "RL".data, "RR".data]

/-- Python's substring test `c in f` for character lists: `c` occurs as
a contiguous infix of `f`. -/
def isSubstring (c f : List Char) : Bool :=
  decide (c <:+: f)

/-- Embedding of the per-file match test inside
`STLFileSelector._find_stl_files_in_folder`: with
`filename = stl_file.name.lower()` and the component lower-cased, the
file matches if the component occurs as a substring, or the filename
starts with it, or the filename ends with `<component>.stl`. -/
def stlMatch (component filename : List Char) : Bool :=
  let f := lowerStr filename
  let c := lowerStr component
  isSubstring c f || c.isPrefixOf f || (c ++ ".stl".data).isSuffixOf f

/-- Embedding of the per-component loop of
`STLFileSelector._find_stl_files_in_folder`.  `files` is the
directory's `*.stl` listing; `chooser` is the interactive
disambiguation input (the 1-based prompt converted to a 0-based index;
the source loops until the user supplies a valid index, so theorems
about the ambiguous branch carry a validity hypothesis).  On a
component with zero matches the source prints `✗ No file found for
<component>` and returns `{}` at once, discarding earlier bindings; the
printed message is recorded in the returned log. -/
def findStlFilesGo (chooser : List Char → List (List Char) → Nat)
    (files : List (List Char)) :
    List (List Char) → List (List Char × List Char) → List (List Char) →
    List (List Char × List Char) × List (List Char)
  | [], found, log => (found, log)
  | c :: rest, found, log =>
    match files.filter (fun f => stlMatch c f) with
    | [] => ([], log ++ ["No file found for ".data ++ c])
    | [f] => findStlFilesGo chooser files rest (found ++ [(c, f)]) log
    | ms => findStlFilesGo chooser files rest
        (found ++ [(c, ms.getD (chooser c ms) [])]) log

/-- Embedding of `STLFileSelector._find_stl_files_in_folder`: resolve
all canonical components against the listing, returning the
name-to-file mapping (empty on failure, as the source returns `{}`)
and the printed log. -/
def findStlFiles (chooser : List Char → List (List Char) → Nat)
    (files : List (List Char)) :
    List (List Char × List Char) × List (List Char) :=
  findStlFilesGo chooser files stlComponents [] []

/-! ## `numberOfSubdomains` patch
(`main.py`, `CaseSetup._update_decompose_par_dict`, and the identical
`update_decompose_par_dict` of `my-previous-setupcase.py`)

The source runs `re.sub(r'numberOfSubdomains\s+\d+;',
f'numberOfSubdomains {n};', content)`.  The pattern has no
backtracking ambiguity: after the literal keyword, the maximal
whitespace run must be followed by the maximal digit run and then a
semicolon (whitespace, digits and `;` are disjoint character classes),
so the embedding matches greedily, and `re.sub` scans match start
positions left to right, resuming after each replacement. -/

/-- The literal keyword of the pattern. -/
def nosLit : List Char := "numberOfSubdomains".data

/-- The replacement text `f'numberOfSubdomains {n};'`. -/
def nosRepl (n : Nat) : List Char :=
  "numberOfSubdomains ".data ++ (Nat.repr n).data ++ [';']

/-- Try to match `numberOfSubdomains\s+\d+;` at the head of `s`;
on success return the remainder of `s` after the match. -/
def matchNOSAt (s : List Char) : Option (List Char) :=
  if nosLit.isPrefixOf s then
    let rest := s.drop nosLit.length
    let ws := rest.takeWhile isWS
    if ws.isEmpty then none else
    let rest2 := rest.drop ws.length
    let ds := rest2.takeWhile isDigitCh
    if ds.isEmpty then none else
    match rest2.drop ds.length with
    | ';' :: tail => some tail
    | _ => none
  else none

theorem matchNOSAt_some_length {s t : List Char} (h : matchNOSAt s = some t) :
    t.length < s.length := by
  unfold matchNOSAt at h
  split at h
  case isFalse => exact absurd h (by simp)
  case isTrue hp =>
    simp only at h
    split at h
    · exact absurd h (by simp)
    · split at h
      · exact absurd h (by simp)
      · split at h
        case h_1 tail heq =>
          have h2 := congrArg List.length heq
          simp only [List.length_drop, List.length_cons] at h2
          have h3 : (0:Nat) < nosLit.length := by decide
          have h4 : tail = t := by injection h
          subst h4
          omega
        case h_2 => exact absurd h (by simp)

/-- Embedding of
`re.sub(r'numberOfSubdomains\s+\d+;', f'numberOfSubdomains {n};', content)`:
scan left to right, replace every match, resume after the match. -/
def reSubNOS (n : Nat) : List Char → List Char
  | [] => []
  | c :: rest =>
    match h : matchNOSAt (c :: rest) with
    | some tail => nosRepl n ++ reSubNOS n tail
    | none => c :: reSubNOS n rest
termination_by s => s.length
decreasing_by
  · exact matchNOSAt_some_length h
  · simp

/-- Embedding of `CaseSetup._update_decompose_par_dict` as a transform
of the optional file content: `if decompose_file.exists()` guards the
read-substitute-write sequence, so an absent file (`none`) is left
untouched. -/
def updateDecomposeParFile (n : Nat) (file : Option (List Char)) :
    Option (List Char) :=
  match file with
  | none => none
  | some content => some (reSubNOS n content)

/-! ## List and character helper lemmas -/

theorem all_range_iff {k : Nat} {f : Nat → Bool} :
    ((List.range k).all f = true) ↔ ∀ i < k, f i = true := by
  simp [List.all_eq_true, List.mem_range]

theorem isPrefixOf_append_self {α : Type} [BEq α] [LawfulBEq α] (w r : List α) :
    w.isPrefixOf (w ++ r) = true :=
  List.isPrefixOf_iff_prefix.mpr (List.prefix_append w r)

theorem takeWhile_append_stop {p : Char → Bool} :
    ∀ (w r : List Char), (∀ c ∈ w, p c = true) →
      (∀ c, r.head? = some c → p c = false) →
      (w ++ r).takeWhile p = w := by
  intro w
  induction w with
  | nil =>
    intro r _ hr
    cases r with
    | nil => rfl
    | cons a t => simp [List.takeWhile_cons, hr a rfl]
  | cons a w ih =>
    intro r hw hr
    have ha : p a = true := hw a (List.mem_cons_self a w)
    simp [List.takeWhile_cons, ha,
      ih r (fun c hc => hw c (List.mem_cons_of_mem a hc)) hr]

theorem isWS_eq_false_of_isDigitCh {c : Char} (h : isDigitCh c = true) :
    isWS c = false := by
  unfold isDigitCh at h
  rw [Bool.and_eq_true, decide_eq_true_eq, decide_eq_true_eq] at h
  obtain ⟨h1, h2⟩ := h
  unfold isWS
  simp only [Bool.or_eq_false_iff, beq_eq_false_iff_ne]
  refine ⟨⟨⟨⟨⟨?_, ?_⟩, ?_⟩, ?_⟩, ?_⟩, ?_⟩ <;>
    (rintro rfl; exact absurd h1 (by decide))

/-! ## Behaviour of the `numberOfSubdomains` substitution -/

theorem reSubNOS_nil (n : Nat) : reSubNOS n [] = [] := by
  rw [reSubNOS]

theorem matchNOSAt_none_of_not_lit {s : List Char}
    (h : nosLit.isPrefixOf s = false) : matchNOSAt s = none := by
  unfold matchNOSAt
  simp [h]

theorem reSubNOS_cons_none {n : Nat} {a : Char} {t : List Char}
    (h : matchNOSAt (a :: t) = none) :
    reSubNOS n (a :: t) = a :: reSubNOS n t := by
  rw [reSubNOS]
  split
  · rename_i tail heq
    rw [h] at heq
    exact absurd heq (by simp)
  · rfl

theorem reSubNOS_cons_some {n : Nat} {a : Char} {t tail : List Char}
    (h : matchNOSAt (a :: t) = some tail) :
    reSubNOS n (a :: t) = nosRepl n ++ reSubNOS n tail := by
  rw [reSubNOS]
  split
  · rename_i tail' heq
    rw [h] at heq
    have h2 : tail = tail' := by injection heq
    rw [h2]
  · rename_i heq
    rw [h] at heq
    exact absurd heq (by simp)

theorem reSubNOS_of_match {n : Nat} {s tail : List Char}
    (h : matchNOSAt s = some tail) :
    reSubNOS n s = nosRepl n ++ reSubNOS n tail := by
  cases s with
  | nil =>
    rw [matchNOSAt_none_of_not_lit (by decide)] at h
    exact absurd h (by simp)
  | cons a t => exact reSubNOS_cons_some h

theorem reSubNOS_append_of_no_match (n : Nat) :
    ∀ (pre rest : List Char),
      (∀ i < pre.length, nosLit.isPrefixOf ((pre ++ rest).drop i) = false) →
      reSubNOS n (pre ++ rest) = pre ++ reSubNOS n rest := by
  intro pre
  induction pre with
  | nil => intro rest _; simp
  | cons a pre ih =>
    intro rest h
    have h0 : nosLit.isPrefixOf (a :: (pre ++ rest)) = false := by
      simpa using h 0 (by simp)
    show reSubNOS n (a :: (pre ++ rest)) = a :: (pre ++ reSubNOS n rest)
    rw [reSubNOS_cons_none (matchNOSAt_none_of_not_lit h0)]
    rw [ih rest (fun i hi => by
      simpa using h (i + 1) (by simp [Nat.succ_lt_succ hi]))]

theorem reSubNOS_eq_self (n : Nat) :
    ∀ (s : List Char), (∀ i < s.length, nosLit.isPrefixOf (s.drop i) = false) →
      reSubNOS n s = s := by
  intro s
  induction s with
  | nil => intro _; exact reSubNOS_nil n
  | cons a t ih =>
    intro h
    have h0 : nosLit.isPrefixOf (a :: t) = false := by
      simpa using h 0 (by simp)
    rw [reSubNOS_cons_none (matchNOSAt_none_of_not_lit h0)]
    rw [ih (fun i hi => by simpa using h (i + 1) (by simp [Nat.succ_lt_succ hi]))]

theorem matchNOSAt_line (w ds post : List Char)
    (hw0 : w ≠ []) (hw : ∀ c ∈ w, isWS c = true)
    (hds0 : ds ≠ []) (hds : ∀ c ∈ ds, isDigitCh c = true) :
    matchNOSAt (nosLit ++ (w ++ (ds ++ (';' :: post)))) = some post := by
  unfold matchNOSAt
  rw [isPrefixOf_append_self]
  simp only [if_true, List.drop_left]
  have hws : (w ++ (ds ++ (';' :: post))).takeWhile isWS = w := by
    apply takeWhile_append_stop w _ hw
    intro c hc
    cases ds with
    | nil => exact absurd rfl hds0
    | cons d ds' =>
      simp only [List.cons_append, List.head?] at hc
      injection hc with hc
      rw [← hc]
      exact isWS_eq_false_of_isDigitCh (hds d (List.mem_cons_self d ds'))
  rw [hws, List.drop_left]
  have hne : w.isEmpty = false := by
    cases w with
    | nil => exact absurd rfl hw0
    | cons _ _ => rfl
  rw [hne]
  simp only [Bool.false_eq_true, if_false]
  have hdss : (ds ++ (';' :: post)).takeWhile isDigitCh = ds := by
    apply takeWhile_append_stop ds _ hds
    intro c hc
    simp only [List.head?] at hc
    injection hc with hc
    rw [← hc]
    decide
  rw [hdss, List.drop_left]
  have hne2 : ds.isEmpty = false := by
    cases ds with
    | nil => exact absurd rfl hds0
    | cons _ _ => rfl
  rw [hne2]
  simp

/-- C8: if the decomposition configuration file contains the line
`numberOfSubdomains <k>;` (digits `ds`) exactly once, the patch
rewrites only that integer, producing `numberOfSubdomains <n>;` with
every other byte unchanged; an absent file is a no-op. -/
theorem decompose_patch_exact (n : Nat) (pre ds post : List Char)
    (hds0 : ds ≠ []) (hds : ds.all isDigitCh = true)
    (hpre : ((List.range pre.length).all fun i =>
        !nosLit.isPrefixOf
          ((pre ++ ("numberOfSubdomains ".data ++ (ds ++ (';' :: post)))).drop i))
      = true)
    (hpost : ((List.range post.length).all fun i =>
        !nosLit.isPrefixOf (post.drop i)) = true) :
    updateDecomposeParFile n
        (some (pre ++ ("numberOfSubdomains ".data ++ (ds ++ (';' :: post))))) =
      some (pre ++ (nosRepl n ++ post)) ∧
    updateDecomposeParFile n none = none := by
  refine ⟨?_, rfl⟩
  show some (reSubNOS n _) = _
  have hpre' : ∀ i < pre.length,
      nosLit.isPrefixOf
        ((pre ++ ("numberOfSubdomains ".data ++ (ds ++ (';' :: post)))).drop i)
        = false := by
    intro i hi
    have := all_range_iff.mp hpre i hi
    rwa [Bool.not_eq_true'] at this
  rw [reSubNOS_append_of_no_match n pre _ hpre']
  have hlit : "numberOfSubdomains ".data = nosLit ++ [' '] := by decide
  rw [hlit, List.append_assoc]
  rw [reSubNOS_of_match (matchNOSAt_line [' '] ds post (by decide)
    (by intro c hc; simp at hc; rw [hc]; decide) hds0
    (fun c hc => List.all_eq_true.mp hds c hc))]
  rw [reSubNOS_eq_self n post (fun i hi => by
    have := all_range_iff.mp hpost i hi
    rwa [Bool.not_eq_true'] at this)]

/-- Witness for `decompose_patch_exact` at a concrete file
`a{NL}numberOfSubdomains 4;{NL}z` patched to processor count 8. -/
theorem decompose_patch_exact_witness :
    updateDecomposeParFile 8
        (some ("a\n".data ++ ("numberOfSubdomains ".data ++ (['4'] ++ (';' :: "\nz".data))))) =
      some ("a\n".data ++ (nosRepl 8 ++ "\nz".data)) ∧
    updateDecomposeParFile 8 none = none := by
  have := decompose_patch_exact 8 "a\n".data ['4'] "\nz".data
    (by decide) (by decide) (by decide) (by decide)
  exact this

/-! ## C3: result-row selection -/

/-- C3: a missing or unreadable coefficient file and a table with zero
data rows yield `none` (no result, nothing raised); a single data row
is used as is; with several rows the last row is used; the sample takes
time, drag, lift, moment from columns 0, 1, 4, 6 of the chosen row;
and a chosen row with fewer than 7 columns is caught and also yields
`none`.  The embedding is a total function, so no input aborts. -/
theorem extractor_row_selection :
    extractLatestCd none = none ∧
    extractLatestCd (some []) = none ∧
    (∀ (r : List ℚ) (h : 6 < r.length),
      extractLatestCd (some [r]) =
        some ⟨r.get ⟨0, by omega⟩, r.get ⟨1, by omega⟩,
              r.get ⟨4, by omega⟩, r.get ⟨6, by omega⟩⟩) ∧
    (∀ (rows : List (List ℚ)) (r : List ℚ) (h : 6 < r.length),
      extractLatestCd (some (rows ++ [r])) =
        some ⟨r.get ⟨0, by omega⟩, r.get ⟨1, by omega⟩,
              r.get ⟨4, by omega⟩, r.get ⟨6, by omega⟩⟩) ∧
    (∀ (rows : List (List ℚ)) (r : List ℚ), rows.getLast? = some r →
      r.length ≤ 6 → extractLatestCd (some rows) = none) := by
  refine ⟨rfl, rfl, ?_, ?_, ?_⟩
  · intro r h
    simp [extractLatestCd, h]
  · intro rows r h
    simp [extractLatestCd, List.getLast?_concat, h]
  · intro rows r hlast hle
    have hnot : ¬ 6 < r.length := by omega
    simp [extractLatestCd, hlast, hnot]

/-- Witness for `extractor_row_selection`: concrete one-row and
three-row tables. -/
theorem extractor_row_selection_witness :
    extractLatestCd (some [[(10:ℚ), 1, 2, 3, 4, 5, 6]]) =
      some ⟨10, 1, 4, 6⟩ ∧
    extractLatestCd
        (some [[(1:ℚ), 9, 9, 9, 9, 9, 9], [(2:ℚ), 8, 8, 8, 8, 8, 8],
               [(3:ℚ), 7, 2, 3, 4, 5, 6]]) =
      some ⟨3, 7, 4, 6⟩ := by
  constructor
  · exact extractor_row_selection.2.2.1 [(10:ℚ), 1, 2, 3, 4, 5, 6] (by simp)
  · exact extractor_row_selection.2.2.2.1
      [[(1:ℚ), 9, 9, 9, 9, 9, 9], [(2:ℚ), 8, 8, 8, 8, 8, 8]]
      [(3:ℚ), 7, 2, 3, 4, 5, 6] (by simp)

/-! ## C6: filename matching characterization -/

/-- C6: for a file with the `.stl` extension (the only files the
single-extension, non-recursive `glob("*.stl")` listing can contain),
the source's match test holds if and only if, case-insensitively, the
component name occurs anywhere in the filename, or the filename starts
with the name, or the filename stem ends with the name. -/
theorem stl_match_characterization (component stem : List Char) :
    stlMatch component (stem ++ ".stl".data) = true ↔
      (lowerStr component <:+: lowerStr (stem ++ ".stl".data) ∨
       lowerStr component <+: lowerStr (stem ++ ".stl".data) ∨
       lowerStr component <:+ lowerStr stem) := by
  have hmap : lowerStr (stem ++ ".stl".data) = lowerStr stem ++ ".stl".data := by
    unfold lowerStr
    rw [List.map_append]
    congr 1
  have hsuf : (lowerStr component ++ ['.', 's', 't', 'l'] <:+
      lowerStr stem ++ ['.', 's', 't', 'l']) ↔
      lowerStr component <:+ lowerStr stem := by
    rw [← List.reverse_prefix, ← List.reverse_prefix, List.reverse_append,
      List.reverse_append, List.prefix_append_right_inj]
  unfold stlMatch
  simp only [Bool.or_eq_true, isSubstring, decide_eq_true_eq,
    List.isPrefixOf_iff_prefix, List.isSuffixOf_iff_suffix, hmap]
  rw [hsuf]
  tauto

/-! ## C7: a missing canonical component aborts the whole resolution -/

theorem findStlFilesGo_missing (chooser : List Char → List (List Char) → Nat)
    (files : List (List Char)) (c : List Char)
    (hc : files.filter (fun f => stlMatch c f) = []) :
    ∀ (preC : List (List Char)),
      (∀ c' ∈ preC, files.filter (fun f => stlMatch c' f) ≠ []) →
      ∀ (sufC : List (List Char)) (found : List (List Char × List Char))
        (log : List (List Char)),
      (findStlFilesGo chooser files (preC ++ c :: sufC) found log).1 = [] ∧
      ("No file found for ".data ++ c) ∈
        (findStlFilesGo chooser files (preC ++ c :: sufC) found log).2 := by
  intro preC
  induction preC with
  | nil =>
    intro _ sufC found log
    simp [findStlFilesGo, hc]
  | cons a preC ih =>
    intro hpre sufC found log
    have ha := hpre a (List.mem_cons_self a preC)
    have hrec := ih (fun c' hc' => hpre c' (List.mem_cons_of_mem a hc'))
    cases hfa : files.filter (fun f => stlMatch a f) with
    | nil => exact absurd hfa ha
    | cons f fs =>
      cases fs with
      | nil =>
        have hstep : findStlFilesGo chooser files ((a :: preC) ++ c :: sufC) found log
            = findStlFilesGo chooser files (preC ++ c :: sufC)
                (found ++ [(a, f)]) log := by
          simp only [List.cons_append, findStlFilesGo, hfa, List.append_eq]
        rw [hstep]
        exact hrec sufC _ log
      | cons f2 fs2 =>
        have hstep : findStlFilesGo chooser files ((a :: preC) ++ c :: sufC) found log
            = findStlFilesGo chooser files (preC ++ c :: sufC)
                (found ++ [(a, (f :: f2 :: fs2).getD (chooser a (f :: f2 :: fs2)) [])])
                log := by
          simp only [List.cons_append, findStlFilesGo, hfa, List.append_eq]
        rw [hstep]
        exact hrec sufC _ log

/-- C7: if a canonical component (`c`, with the earlier components in
canonical order all having at least one match) has zero matching
files, the resolution returns the empty mapping — no component is
bound — and the printed failure names that component.  The resolver is
a pure function of the listing: it performs no filesystem mutation. -/
theorem resolver_missing_component_aborts
    (chooser : List Char → List (List Char) → Nat) (files : List (List Char))
    (preC : List (List Char)) (c : List Char) (sufC : List (List Char))
    (hsplit : stlComponents = preC ++ c :: sufC)
    (hpre : ∀ c' ∈ preC, files.filter (fun f => stlMatch c' f) ≠ [])
    (hc : files.filter (fun f => stlMatch c f) = []) :
    (findStlFiles chooser files).1 = [] ∧
    ("No file found for ".data ++ c) ∈ (findStlFiles chooser files).2 := by
  unfold findStlFiles
  rw [hsplit]
  exact findStlFilesGo_missing chooser files c hc preC hpre sufC [] []

/-- Witness for `resolver_missing_component_aborts`: a directory with
the four wheel files but no file for `mainBody`. -/
theorem resolver_missing_component_aborts_witness :
    (findStlFiles (fun _ _ => 0)
        ["fl.stl".data, "fr.stl".data, "rl.stl".data, "rr.stl".data]).1 = [] ∧
    ("No file found for ".data ++ "mainBody".data) ∈
      (findStlFiles (fun _ _ => 0)
        ["fl.stl".data, "fr.stl".data, "rl.stl".data, "rr.stl".data]).2 :=
  resolver_missing_component_aborts (fun _ _ => 0)
    ["fl.stl".data, "fr.stl".data, "rl.stl".data, "rr.stl".data]
    ["FL".data, "FR".data, "RL".data, "RR".data] "mainBody".data []
    (by decide) (by decide) (by decide)

/-! ## Wheel-origin patch (`main.py`, `CaseSetup._update_wheel_centers`)

The source runs, for each wheel component with a computed centroid,

`re.sub(rf'(\s+{component}\s*\{...\s*[\s\S]*?type\s+rotatingWallVelocity;`
`\s*origin\s+)\([^)]+\)(;[\s\S]*?\})', replacement, content)`

where the replacement reinserts group 1 and group 2 around the freshly
formatted origin literal.  The pattern is deterministic for this
component alphabet: every literal piece starts with a non-whitespace,
non-`)`/non-brace character, so each greedy `\s+`/`\s*`/`[^)]+` run is
the maximal run with no backtracking, and each lazy `[\s\S]*?` is the
shortest gap to the first position where the rest of the pattern
matches (no earlier position can work, because the following literal
cannot begin inside the run just consumed).  `re.sub` scans match
start positions left to right and resumes after each replacement. -/

/-- Pattern literal `type`. -/
def typeLit : List Char := "type".data

/-- Pattern literal `rotatingWallVelocity;`. -/
def rwvLit : List Char := "rotatingWallVelocity;".data

/-- Pattern literal `origin`. -/
def originLit : List Char := "origin".data

/-- The left brace character. -/
def lbrace : Char := '\x7b'

/-- The right brace character. -/
def rbrace : Char := '\x7d'

/-- Match a literal at the head of `s`; on success return the rest. -/
def litStep (w s : List Char) : Option (List Char) :=
  if w.isPrefixOf s then some (s.drop w.length) else none

/-- Match `\s+` at the head of `s` (maximal nonempty whitespace run);
on success return the run and the rest. -/
def wsPlusStep (s : List Char) : Option (List Char × List Char) :=
  let w := s.takeWhile isWS
  if w.isEmpty then none else some (w, s.drop w.length)

/-- Match `\s*` at the head of `s` (maximal whitespace run);
return the run and the rest. -/
def wsStarStep (s : List Char) : List Char × List Char :=
  (s.takeWhile isWS, s.drop (s.takeWhile isWS).length)

/-- Match `[^)]+\);` at the head of `s`: a maximal nonempty run of
non-`)` characters, then the literal `);`.  Return the run and the
rest. -/
def parenStep (s : List Char) : Option (List Char × List Char) :=
  let b := s.takeWhile (fun c => c != ')')
  if b.isEmpty then none else
  match s.drop b.length with
  | ')' :: ';' :: t => some (b, t)
  | _ => none

/-- Match `[\s\S]*?\}` at the head of `s`: the (lazy, hence shortest)
gap up to the first right brace, then that brace.  Return the gap and
the rest. -/
def closeStep (s : List Char) : Option (List Char × List Char) :=
  let m := s.takeWhile (fun c => c != rbrace)
  match s.drop m.length with
  | _ :: t => some (m, t)
  | [] => none

/-- The parts of one match of the sub-pattern
`type\s+rotatingWallVelocity;\s*origin\s+\([^)]+\)(;[\s\S]*?\})`. -/
structure MarkerMatch where
  g1tail : List Char
  orig : List Char
  g2 : List Char
  rest : List Char
deriving DecidableEq, Repr

/-- Match the sub-pattern starting at `type` at the head of `s`. -/
def matchMarker (s : List Char) : Option MarkerMatch :=
  match litStep typeLit s with
  | none => none
  | some s1 =>
  match wsPlusStep s1 with
  | none => none
  | some (w1, s2) =>
  match litStep rwvLit s2 with
  | none => none
  | some s3 =>
  let w2 := (wsStarStep s3).1
  let s4 := (wsStarStep s3).2
  match litStep originLit s4 with
  | none => none
  | some s5 =>
  match wsPlusStep s5 with
  | none => none
  | some (w3, s6) =>
  match s6 with
  | '(' :: s7 =>
    match parenStep s7 with
    | none => none
    | some (b, s8) =>
      match closeStep s8 with
      | none => none
      | some (m2, s9) =>
        some ⟨typeLit ++ w1 ++ rwvLit ++ w2 ++ originLit ++ w3,
              '(' :: (b ++ [')']), ';' :: (m2 ++ [rbrace]), s9⟩
  | _ => none

/-- The lazy gap `\s*[\s\S]*?` before the marker: the first position at
or after the head of `s` where the rest of the pattern matches (the
marker literal `type` cannot begin inside a whitespace run, so the
greedy `\s*` followed by the lazy any-gap explores exactly the
positions in this order). -/
def findMarker : List Char → Option (List Char × MarkerMatch)
  | [] => none
  | c :: t =>
    match matchMarker (c :: t) with
    | some r => some ([], r)
    | none =>
      match findMarker t with
      | some (sk, r) => some (c :: sk, r)
      | none => none

/-- The parts of one full match of the per-component pattern. -/
structure OriginMatch where
  g1 : List Char
  orig : List Char
  g2 : List Char
  rest : List Char
deriving DecidableEq, Repr

/-- Match the full pattern
`(\s+comp\s*\{\s*[\s\S]*?...origin\s+)\([^)]+\)(;[\s\S]*?\})`
starting at the head of `s`. -/
def tryMatchAt (comp s : List Char) : Option OriginMatch :=
  match wsPlusStep s with
  | none => none
  | some (w0, s1) =>
  match litStep comp s1 with
  | none => none
  | some s2 =>
  let w1 := (wsStarStep s2).1
  match (wsStarStep s2).2 with
  | '\x7b' :: s4 =>
    (match findMarker s4 with
     | some (sk, r) =>
       some ⟨w0 ++ comp ++ w1 ++ lbrace :: (sk ++ r.g1tail), r.orig, r.g2, r.rest⟩
     | none => none)
  | _ => none

theorem litStep_some_length {w s t : List Char} (h : litStep w s = some t) :
    t.length + w.length = s.length := by
  unfold litStep at h
  split at h
  · rename_i hp
    have hle : w.length ≤ s.length :=
      (List.isPrefixOf_iff_prefix.mp hp).length_le
    have ht : s.drop w.length = t := by injection h
    subst ht
    simp only [List.length_drop]
    omega
  · exact absurd h (by simp)

theorem ne_nil_of_isEmpty_false {l : List Char} (h : l.isEmpty = false) :
    l ≠ [] := by
  cases l with
  | nil => simp at h
  | cons a t => simp

theorem wsPlusStep_some_length {s w t : List Char}
    (h : wsPlusStep s = some (w, t)) :
    t.length + w.length = s.length ∧ w ≠ [] := by
  unfold wsPlusStep at h
  simp only at h
  split at h
  · exact absurd h (by simp)
  · rename_i hne
    simp only [Option.some.injEq, Prod.mk.injEq] at h
    obtain ⟨hw, ht⟩ := h
    subst hw
    subst ht
    refine ⟨?_, ne_nil_of_isEmpty_false (by simpa using hne)⟩
    have hle : (s.takeWhile isWS).length ≤ s.length :=
      List.Sublist.length_le (List.takeWhile_sublist isWS)
    simp only [List.length_drop]
    omega

theorem wsStarStep_snd_length (s : List Char) :
    (wsStarStep s).2.length ≤ s.length := by
  unfold wsStarStep
  simp only [List.length_drop]
  omega

theorem parenStep_some_length {s b t : List Char}
    (h : parenStep s = some (b, t)) : t.length < s.length := by
  unfold parenStep at h
  simp only at h
  split at h
  · exact absurd h (by simp)
  · split at h
    case h_1 t' heq =>
      simp only [Option.some.injEq, Prod.mk.injEq] at h
      obtain ⟨hb, ht⟩ := h
      subst ht
      have h2 := congrArg List.length heq
      simp only [List.length_drop, List.length_cons] at h2
      omega
    case h_2 => exact absurd h (by simp)

theorem closeStep_some_length {s m t : List Char}
    (h : closeStep s = some (m, t)) : t.length < s.length := by
  unfold closeStep at h
  simp only at h
  split at h
  case h_1 c t' heq =>
    simp only [Option.some.injEq, Prod.mk.injEq] at h
    obtain ⟨hm, ht⟩ := h
    subst ht
    have h2 := congrArg List.length heq
    simp only [List.length_drop, List.length_cons] at h2
    omega
  case h_2 => exact absurd h (by simp)

theorem matchMarker_some_length {s : List Char} {r : MarkerMatch}
    (h : matchMarker s = some r) : r.rest.length < s.length := by
  unfold matchMarker at h
  split at h
  · exact absurd h (by simp)
  · rename_i s1 h1
    split at h
    · exact absurd h (by simp)
    · rename_i w1 s2 h2
      split at h
      · exact absurd h (by simp)
      · rename_i s3 h3
        simp only at h
        split at h
        · exact absurd h (by simp)
        · rename_i s5 h5
          split at h
          · exact absurd h (by simp)
          · rename_i w3 s6 h6
            split at h
            case h_1 s7 =>
              split at h
              · exact absurd h (by simp)
              · rename_i b s8 h8
                split at h
                · exact absurd h (by simp)
                · rename_i m2 s9 h9
                  simp only [Option.some.injEq] at h
                  subst h
                  show s9.length < s.length
                  have l1 := litStep_some_length h1
                  have l2 := (wsPlusStep_some_length h2).1
                  have l3 := litStep_some_length h3
                  have l4 := wsStarStep_snd_length s3
                  have l5 := litStep_some_length h5
                  have l6 := (wsPlusStep_some_length h6).1
                  have l8 := parenStep_some_length h8
                  have l9 := closeStep_some_length h9
                  have l7 : ('(' :: s7 : List Char).length = s7.length + 1 := by
                    simp
                  have lt : (0:Nat) < typeLit.length := by decide
                  omega
            case h_2 => exact absurd h (by simp)

theorem findMarker_some_length :
    ∀ {s : List Char} {sk : List Char} {r : MarkerMatch},
      findMarker s = some (sk, r) → r.rest.length < s.length := by
  intro s
  induction s with
  | nil => intro sk r h; exact absurd h (by simp [findMarker])
  | cons c t ih =>
    intro sk r h
    unfold findMarker at h
    split at h
    · rename_i r' hm
      simp only [Option.some.injEq, Prod.mk.injEq] at h
      obtain ⟨hsk, hr⟩ := h
      subst hr
      exact matchMarker_some_length hm
    · split at h
      · rename_i sk' r' hf
        simp only [Option.some.injEq, Prod.mk.injEq] at h
        obtain ⟨hsk, hr⟩ := h
        subst hr
        have := ih hf
        simp only [List.length_cons]
        omega
      · exact absurd h (by simp)

theorem tryMatchAt_some_length {comp s : List Char} {r : OriginMatch}
    (h : tryMatchAt comp s = some r) : r.rest.length < s.length := by
  unfold tryMatchAt at h
  split at h
  · exact absurd h (by simp)
  · rename_i w0 s1 h1
    split at h
    · exact absurd h (by simp)
    · rename_i s2 h2
      simp only at h
      split at h
      case h_1 s4 hs4 =>
        split at h
        · rename_i sk rm hf
          simp only [Option.some.injEq] at h
          subst h
          show rm.rest.length < s.length
          have l1 := (wsPlusStep_some_length h1).1
          have l2 := litStep_some_length h2
          have l3 := wsStarStep_snd_length s2
          have l4 := congrArg List.length hs4
          simp only [List.length_cons] at l4
          have l5 := findMarker_some_length hf
          have hw0 : w0 ≠ [] := (wsPlusStep_some_length h1).2
          have hw0' : 0 < w0.length := List.length_pos.mpr hw0
          omega
        · exact absurd h (by simp)
      case h_2 => exact absurd h (by simp)

/-- Embedding of
`content = re.sub(pattern(component), replacement(origin_str), content)`
inside `CaseSetup._update_wheel_centers`: scan match start positions
left to right; at each match emit group 1, the new origin literal and
group 2, then resume after the match. -/
def reSubOrigin (comp newOrig : List Char) : List Char → List Char
  | [] => []
  | c :: t =>
    match h : tryMatchAt comp (c :: t) with
    | some r => r.g1 ++ newOrig ++ r.g2 ++ reSubOrigin comp newOrig r.rest
    | none => c :: reSubOrigin comp newOrig t
termination_by s => s.length
decreasing_by
  · exact tryMatchAt_some_length h
  · simp

/-! ## Evaluation of the origin-pattern matcher on a well-formed block -/

theorem head?_append_of_ne_nil {l : List Char} (r : List Char) (h : l ≠ []) :
    (l ++ r).head? = l.head? := by
  cases l with
  | nil => exact absurd rfl h
  | cons a t => rfl

theorem head_stop_cons {p : Char → Bool} {a : Char} {l : List Char}
    (ha : p a = false) :
    ∀ c, (a :: l).head? = some c → p c = false := by
  intro c hc
  simp only [List.head?_cons, Option.some.injEq] at hc
  rw [← hc]
  exact ha

theorem litStep_self (w r : List Char) : litStep w (w ++ r) = some r := by
  unfold litStep
  rw [isPrefixOf_append_self]
  simp [List.drop_left]

theorem wsPlusStep_eval (w r : List Char) (hw0 : w ≠ [])
    (hw : ∀ c ∈ w, isWS c = true)
    (hr : ∀ c, r.head? = some c → isWS c = false) :
    wsPlusStep (w ++ r) = some (w, r) := by
  unfold wsPlusStep
  simp only [takeWhile_append_stop w r hw hr, List.drop_left]
  have hne : w.isEmpty = false := by
    cases w with
    | nil => exact absurd rfl hw0
    | cons a t => rfl
  rw [hne]
  simp

theorem wsStarStep_eval (w r : List Char)
    (hw : ∀ c ∈ w, isWS c = true)
    (hr : ∀ c, r.head? = some c → isWS c = false) :
    wsStarStep (w ++ r) = (w, r) := by
  unfold wsStarStep
  simp only [takeWhile_append_stop w r hw hr, List.drop_left]

theorem parenStep_eval (b t : List Char) (hb0 : b ≠ [])
    (hb : ∀ c ∈ b, (c != ')') = true) :
    parenStep (b ++ (')' :: ';' :: t)) = some (b, t) := by
  unfold parenStep
  have htw : (b ++ (')' :: ';' :: t)).takeWhile (fun c => c != ')') = b :=
    takeWhile_append_stop b _ hb (head_stop_cons (by decide))
  simp only [htw, List.drop_left]
  have hne : b.isEmpty = false := by
    cases b with
    | nil => exact absurd rfl hb0
    | cons a t' => rfl
  rw [hne]
  simp

theorem closeStep_eval (m t : List Char)
    (hm : ∀ c ∈ m, (c != rbrace) = true) :
    closeStep (m ++ (rbrace :: t)) = some (m, t) := by
  unfold closeStep
  have htw : (m ++ (rbrace :: t)).takeWhile (fun c => c != rbrace) = m :=
    takeWhile_append_stop m _ hm (head_stop_cons (by decide))
  simp only [htw, List.drop_left]

theorem matchMarker_eval (w1 w2 w3 b m2 post : List Char)
    (hw1 : w1 ≠ []) (hw1a : ∀ c ∈ w1, isWS c = true)
    (hw2a : ∀ c ∈ w2, isWS c = true)
    (hw3 : w3 ≠ []) (hw3a : ∀ c ∈ w3, isWS c = true)
    (hb : b ≠ []) (hba : ∀ c ∈ b, (c != ')') = true)
    (hm2 : ∀ c ∈ m2, (c != rbrace) = true) :
    matchMarker (typeLit ++ (w1 ++ (rwvLit ++ (w2 ++ (originLit ++ (w3 ++
        ('(' :: (b ++ (')' :: ';' :: (m2 ++ (rbrace :: post))))))))))) =
      some ⟨typeLit ++ w1 ++ rwvLit ++ w2 ++ originLit ++ w3,
            '(' :: (b ++ [')']), ';' :: (m2 ++ [rbrace]), post⟩ := by
  have e1 := litStep_self typeLit
    (w1 ++ (rwvLit ++ (w2 ++ (originLit ++ (w3 ++
      ('(' :: (b ++ (')' :: ';' :: (m2 ++ (rbrace :: post))))))))))
  have e2 := wsPlusStep_eval w1
    (rwvLit ++ (w2 ++ (originLit ++ (w3 ++
      ('(' :: (b ++ (')' :: ';' :: (m2 ++ (rbrace :: post)))))))))
    hw1 hw1a (head_stop_cons (by decide))
  have e3 := litStep_self rwvLit
    (w2 ++ (originLit ++ (w3 ++
      ('(' :: (b ++ (')' :: ';' :: (m2 ++ (rbrace :: post))))))))
  have e4 := wsStarStep_eval w2
    (originLit ++ (w3 ++
      ('(' :: (b ++ (')' :: ';' :: (m2 ++ (rbrace :: post)))))))
    hw2a (head_stop_cons (by decide))
  have e5 := litStep_self originLit
    (w3 ++ ('(' :: (b ++ (')' :: ';' :: (m2 ++ (rbrace :: post))))))
  have e6 := wsPlusStep_eval w3
    ('(' :: (b ++ (')' :: ';' :: (m2 ++ (rbrace :: post)))))
    hw3 hw3a (head_stop_cons (by decide))
  have e7 := parenStep_eval b (m2 ++ (rbrace :: post)) hb hba
  have e8 := closeStep_eval m2 post hm2
  unfold matchMarker
  simp only [e1, e2, e3, e4, e5, e6, e7, e8]

theorem findMarker_eval :
    ∀ (mid rest : List Char) (r : MarkerMatch),
      (∀ i < mid.length, matchMarker ((mid ++ rest).drop i) = none) →
      matchMarker rest = some r →
      findMarker (mid ++ rest) = some (mid, r) := by
  intro mid
  induction mid with
  | nil =>
    intro rest r _ hr
    cases rest with
    | nil =>
      rw [show matchMarker [] = none from rfl] at hr
      exact absurd hr (by simp)
    | cons c t =>
      show findMarker (c :: t) = _
      unfold findMarker
      rw [hr]
  | cons a mid ih =>
    intro rest r h hr
    have h0 : matchMarker (a :: (mid ++ rest)) = none := by
      simpa using h 0 (by simp)
    show findMarker (a :: (mid ++ rest)) = _
    unfold findMarker
    rw [h0, ih rest r (fun i hi => by
      simpa using h (i + 1) (by simp [Nat.succ_lt_succ hi])) hr]

theorem tryMatchAt_eval (comp w0 w1 mid rest : List Char) (r : MarkerMatch)
    (hw0 : w0 ≠ []) (hw0a : ∀ c ∈ w0, isWS c = true)
    (hcomp : comp ≠ []) (hcomph : ∀ c, comp.head? = some c → isWS c = false)
    (hw1a : ∀ c ∈ w1, isWS c = true)
    (hmid : ∀ i < mid.length, matchMarker ((mid ++ rest).drop i) = none)
    (hrest : matchMarker rest = some r) :
    tryMatchAt comp (w0 ++ (comp ++ (w1 ++ ('\x7b' :: (mid ++ rest))))) =
      some ⟨w0 ++ comp ++ w1 ++ lbrace :: (mid ++ r.g1tail),
            r.orig, r.g2, r.rest⟩ := by
  have e1 : wsPlusStep (w0 ++ (comp ++ (w1 ++ ('\x7b' :: (mid ++ rest)))))
      = some (w0, comp ++ (w1 ++ ('\x7b' :: (mid ++ rest)))) :=
    wsPlusStep_eval _ _ hw0 hw0a
      (fun c hc => hcomph c (by rwa [head?_append_of_ne_nil _ hcomp] at hc))
  have e2 := litStep_self comp (w1 ++ ('\x7b' :: (mid ++ rest)))
  have e3 : wsStarStep (w1 ++ ('\x7b' :: (mid ++ rest)))
      = (w1, '\x7b' :: (mid ++ rest)) :=
    wsStarStep_eval _ _ hw1a (head_stop_cons (by decide))
  have e4 := findMarker_eval mid rest r hmid hrest
  unfold tryMatchAt
  simp only [e1, e2, e3, e4]

/-! ## Scanning behaviour of the origin substitution -/

theorem reSubOrigin_nil (comp o : List Char) : reSubOrigin comp o [] = [] := by
  rw [reSubOrigin]

theorem reSubOrigin_cons_none {comp o : List Char} {a : Char} {t : List Char}
    (h : tryMatchAt comp (a :: t) = none) :
    reSubOrigin comp o (a :: t) = a :: reSubOrigin comp o t := by
  rw [reSubOrigin]
  split
  · rename_i r heq
    rw [h] at heq
    exact absurd heq (by simp)
  · rfl

theorem reSubOrigin_cons_some {comp o : List Char} {a : Char} {t : List Char}
    {r : OriginMatch} (h : tryMatchAt comp (a :: t) = some r) :
    reSubOrigin comp o (a :: t)
      = r.g1 ++ o ++ r.g2 ++ reSubOrigin comp o r.rest := by
  rw [reSubOrigin]
  split
  · rename_i r' heq
    rw [h] at heq
    have h2 : r = r' := by injection heq
    rw [h2]
  · rename_i heq
    rw [h] at heq
    exact absurd heq (by simp)

theorem tryMatchAt_nil (comp : List Char) : tryMatchAt comp [] = none := by
  rfl

theorem reSubOrigin_of_match {comp o s : List Char} {r : OriginMatch}
    (h : tryMatchAt comp s = some r) :
    reSubOrigin comp o s = r.g1 ++ o ++ r.g2 ++ reSubOrigin comp o r.rest := by
  cases s with
  | nil =>
    rw [tryMatchAt_nil] at h
    exact absurd h (by simp)
  | cons a t => exact reSubOrigin_cons_some h

theorem reSubOrigin_append_of_no_match (comp o : List Char) :
    ∀ (pre rest : List Char),
      (∀ i < pre.length, tryMatchAt comp ((pre ++ rest).drop i) = none) →
      reSubOrigin comp o (pre ++ rest) = pre ++ reSubOrigin comp o rest := by
  intro pre
  induction pre with
  | nil => intro rest _; simp
  | cons a pre ih =>
    intro rest h
    have h0 : tryMatchAt comp (a :: (pre ++ rest)) = none := by
      simpa using h 0 (by simp)
    show reSubOrigin comp o (a :: (pre ++ rest)) = a :: (pre ++ reSubOrigin comp o rest)
    rw [reSubOrigin_cons_none h0]
    rw [ih rest (fun i hi => by
      simpa using h (i + 1) (by simp [Nat.succ_lt_succ hi]))]

theorem reSubOrigin_eq_self (comp o : List Char) :
    ∀ (s : List Char), (∀ i < s.length, tryMatchAt comp (s.drop i) = none) →
      reSubOrigin comp o s = s := by
  intro s
  induction s with
  | nil => intro _; exact reSubOrigin_nil comp o
  | cons a t ih =>
    intro h
    have h0 : tryMatchAt comp (a :: t) = none := by
      simpa using h 0 (by simp)
    rw [reSubOrigin_cons_none h0]
    rw [ih (fun i hi => by simpa using h (i + 1) (by simp [Nat.succ_lt_succ hi]))]

/-! ## Fixed-point number formatting (Python `f'{v:.8f}'` / `f'{v:.6f}'`)

Coordinates are embedded as `ℚ` (the exact value of the IEEE double:
every double is a rational).  Python's fixed-point formatting of a
float renders the exact value rounded to `d` decimal digits with ties
to even, with at least one integer digit and a sign taken from the
value (so a tiny negative rounded to zero keeps its minus sign). -/

/-- Round `q * m` to the nearest integer, ties to even, computed on
the exact numerator `q.num * m` over the denominator: the floor is the
floor division, and twice the remainder is compared with the
denominator to classify below-half, above-half and the exact tie. -/
def roundHalfEvenScaled (q : ℚ) (m : Nat) : ℤ :=
  let n := q.num * m
  let den := (q.den : ℤ)
  let f := Int.fdiv n den
  let r2 := 2 * (n - f * den)
  if r2 < den then f
  else if den < r2 then f + 1
  else if f % 2 = 0 then f else f + 1

/-- Left-pad a digit string with zeros to at least `k` characters. -/
def padLeft (s : List Char) (k : Nat) : List Char :=
  List.replicate (k - s.length) '0' ++ s

/-- Python `f'{q:.df}'` for `d ≥ 1`: sign, integer digits, a point,
exactly `d` fraction digits. -/
def fmtFixed (d : Nat) (q : ℚ) : List Char :=
  let n := roundHalfEvenScaled q (10 ^ d)
  let digs := padLeft (Nat.repr n.natAbs).data (d + 1)
  let ip := digs.take (digs.length - d)
  let fp := digs.drop (digs.length - d)
  (if q < 0 then ['-'] else []) ++ (ip ++ ('.' :: fp))

/-- The origin replacement literal
`f"({c[0]:.8f} {c[1]:.6f} {c[2]:.6f})"` built by
`CaseSetup._update_wheel_centers`. -/
def fmtOrigin (x y z : ℚ) : List Char :=
  '(' :: (fmtFixed 8 x ++ (' ' :: (fmtFixed 6 y ++ (' ' :: (fmtFixed 6 z ++ [')'])))))

/-- One wheel centroid as consumed by `_update_wheel_centers`. -/
structure WheelCenter where
  name : List Char
  x : ℚ
  y : ℚ
  z : ℚ

/-- Embedding of the loop of `CaseSetup._update_wheel_centers` over the
file content: for each component in insertion order, substitute its
pattern across the whole content. -/
def updateWheelCentersContent (centers : List WheelCenter)
    (content : List Char) : List Char :=
  centers.foldl
    (fun acc c => reSubOrigin c.name (fmtOrigin c.x c.y c.z) acc) content

/-- The tail of a well-formed motion block, from the `type` keyword to
the closing brace, followed by the rest of the file. -/
def wheelBlockTail (w3 w4 w5 ob mid2 post : List Char) : List Char :=
  typeLit ++ (w3 ++ (rwvLit ++ (w4 ++ (originLit ++ (w5 ++
    ('(' :: (ob ++ (')' :: ';' :: (mid2 ++ (rbrace :: post))))))))))

/-- The same tail with the origin literal replaced. -/
def wheelBlockTailPatched (w3 w4 w5 neworig mid2 post : List Char) : List Char :=
  typeLit ++ (w3 ++ (rwvLit ++ (w4 ++ (originLit ++ (w5 ++
    (neworig ++ (';' :: (mid2 ++ (rbrace :: post)))))))))

/-- C2: for every wheel component with centroid `(x, y, z)` and a file
laid out as `pre`, then a well-formed motion block for that component
(leading whitespace `w0`, the component name, optional whitespace
`w1`, the opening brace, a gap `mid`, the `type rotatingWallVelocity;`
marker, `origin`, the old origin literal `(ob)`, a semicolon, a gap
`mid2`, the closing brace), then `post`, with the pattern matching
nowhere else, the patch rewrites exactly the origin literal to
`({x:.8f} {y:.6f} {z:.6f})` and leaves every other byte of the file
unchanged. -/
theorem wheel_origin_patch (comp : List Char) (x y z : ℚ)
    (pre w0 w1 mid w3 w4 w5 ob mid2 post : List Char)
    (hcomp : comp ∈ wheelComponents)
    (hw0 : w0 ≠ []) (hw0a : ∀ c ∈ w0, isWS c = true)
    (hw1a : ∀ c ∈ w1, isWS c = true)
    (hw3 : w3 ≠ []) (hw3a : ∀ c ∈ w3, isWS c = true)
    (hw4a : ∀ c ∈ w4, isWS c = true)
    (hw5 : w5 ≠ []) (hw5a : ∀ c ∈ w5, isWS c = true)
    (hob : ob ≠ []) (hoba : ∀ c ∈ ob, (c != ')') = true)
    (hmid2a : ∀ c ∈ mid2, (c != rbrace) = true)
    (hmid : ∀ i < mid.length,
      matchMarker ((mid ++ wheelBlockTail w3 w4 w5 ob mid2 post).drop i) = none)
    (hpre : ∀ i < pre.length,
      tryMatchAt comp ((pre ++ (w0 ++ (comp ++ (w1 ++ ('\x7b' ::
        (mid ++ wheelBlockTail w3 w4 w5 ob mid2 post)))))).drop i) = none)
    (hpost : ∀ i < post.length, tryMatchAt comp (post.drop i) = none) :
    updateWheelCentersContent [⟨comp, x, y, z⟩]
        (pre ++ (w0 ++ (comp ++ (w1 ++ ('\x7b' ::
          (mid ++ wheelBlockTail w3 w4 w5 ob mid2 post)))))) =
      pre ++ (w0 ++ (comp ++ (w1 ++ ('\x7b' ::
        (mid ++ wheelBlockTailPatched w3 w4 w5 (fmtOrigin x y z) mid2 post))))) := by
  have hcne : comp ≠ [] := by
    fin_cases hcomp <;> decide
  have hch : ∀ c, comp.head? = some c → isWS c = false := by
    fin_cases hcomp <;> exact head_stop_cons (by decide)
  show reSubOrigin comp (fmtOrigin x y z) _ = _
  rw [reSubOrigin_append_of_no_match comp _ pre _ hpre]
  have hm : matchMarker (wheelBlockTail w3 w4 w5 ob mid2 post)
      = some ⟨typeLit ++ w3 ++ rwvLit ++ w4 ++ originLit ++ w5,
              '(' :: (ob ++ [')']), ';' :: (mid2 ++ [rbrace]), post⟩ := by
    unfold wheelBlockTail
    exact matchMarker_eval w3 w4 w5 ob mid2 post hw3 hw3a hw4a hw5 hw5a hob hoba hmid2a
  have ht := tryMatchAt_eval comp w0 w1 mid
    (wheelBlockTail w3 w4 w5 ob mid2 post) _ hw0 hw0a hcne hch hw1a hmid hm
  rw [reSubOrigin_of_match ht]
  rw [reSubOrigin_eq_self comp _ post hpost]
  unfold wheelBlockTailPatched lbrace
  simp [List.append_assoc]

/-- Witness for `wheel_origin_patch`: a concrete `FL` block with the
spec's example centroid `(1.23456789, 2.345678, -0.5)` (given as exact
rationals), whose patched origin literal is exactly
`(1.23456789 2.345678 -0.500000)`. -/
theorem wheel_origin_patch_witness :
    updateWheelCentersContent
        [⟨"FL".data, (⟨123456789, 100000000, by decide, by decide⟩ : ℚ),
          (⟨1172839, 500000, by decide, by decide⟩ : ℚ),
          (⟨-1, 2, by decide, by decide⟩ : ℚ)⟩]
        ("V;".data ++ ("\n".data ++ ("FL".data ++ ([' '] ++ ('\x7b' ::
          ([] ++ wheelBlockTail [' '] [' '] [' '] "0 0 0".data []
            "\nk".data)))))) =
      "V;".data ++ ("\n".data ++ ("FL".data ++ ([' '] ++ ('\x7b' ::
        ([] ++ wheelBlockTailPatched [' '] [' '] [' ']
          "(1.23456789 2.345678 -0.500000)".data [] "\nk".data))))) := by
  have h := wheel_origin_patch "FL".data
    (⟨123456789, 100000000, by decide, by decide⟩ : ℚ)
    (⟨1172839, 500000, by decide, by decide⟩ : ℚ)
    (⟨-1, 2, by decide, by decide⟩ : ℚ)
    "V;".data "\n".data [' '] [] [' '] [' '] [' '] "0 0 0".data [] "\nk".data
    (by decide) (by decide) (by decide) (by decide) (by decide) (by decide)
    (by decide) (by decide) (by decide) (by decide) (by decide) (by decide)
    (by decide) (by decide) (by decide)
  rw [h]
  have hfmt : fmtOrigin (⟨123456789, 100000000, by decide, by decide⟩ : ℚ)
      (⟨1172839, 500000, by decide, by decide⟩ : ℚ)
      (⟨-1, 2, by decide, by decide⟩ : ℚ)
      = "(1.23456789 2.345678 -0.500000)".data := by decide
  rw [hfmt]

/-! ## Filesystem model and `CaseSetup.setup_case` (`main.py`)

The filesystem is an association list from paths (segment lists) to
byte contents, read through `readFile` (first binding wins) and
updated through `writeFile` (bind the path, dropping older bindings):
an unordered map with a deterministic list representation.
Directories are implicit.  `trimesh.load(...).centroid` — an external
library call — is a parameter `geom` from file content to an optional
centroid; `none` stands for the raised exception that the
`try`/`except` of `setup_case`'s component loop catches and turns
into a per-component warning. -/

/-- A filesystem path, as a list of segments. -/
abbrev FPath := List String

/-- A filesystem: bindings from paths to file contents. -/
abbrev FS := List (FPath × List Char)

/-- `p` lies in the subtree rooted at `root`. -/
def underDir (root p : FPath) : Bool := root.isPrefixOf p

/-- `shutil.rmtree(root)`: remove every file under `root`. -/
def rmtree (root : FPath) (fs : FS) : FS :=
  fs.filter (fun e => ! underDir root e.1)

/-- The bindings lying under `root`. -/
def entriesUnder (root : FPath) (fs : FS) : FS :=
  fs.filter (fun e => underDir root e.1)

/-- Re-root one binding from `src` to `dst`. -/
def reroot (src dst : FPath) (e : FPath × List Char) : FPath × List Char :=
  (dst ++ e.1.drop src.length, e.2)

/-- `shutil.copytree(src, dst)` with `dst` not present: add a re-rooted
copy of every binding under `src`. -/
def copytree (src dst : FPath) (fs : FS) : FS :=
  fs ++ (entriesUnder src fs).map (reroot src dst)

/-- Read the file at `p`. -/
def readFile (p : FPath) (fs : FS) : Option (List Char) :=
  (fs.find? (fun e => e.1 == p)).map (fun e => e.2)

/-- Write content `c` at `p`, replacing any previous binding. -/
def writeFile (p : FPath) (c : List Char) (fs : FS) : FS :=
  (p, c) :: fs.filter (fun e => e.1 != p)

/-- The wheel-component names of the `setup_case` loop. -/
def wheelNames : List String := ["FL", "FR", "RL", "RR"]

/-- `constant/triSurface/<component>.stl` under the case directory. -/
def triSurfacePath (dest : FPath) (c : String) : FPath :=
  dest ++ ["constant", "triSurface", c ++ ".stl"]

/-- `0/U` under the case directory. -/
def uFilePath (dest : FPath) : FPath := dest ++ ["0", "U"]

/-- `system/decomposeParDict` under the case directory. -/
def decomposeParPath (dest : FPath) : FPath :=
  dest ++ ["system", "decomposeParDict"]

/-- Outcome of `setup_case`: the filesystem, the returned boolean and
the printed warnings. -/
structure SetupResult where
  fs : FS
  success : Bool
  warnings : List String

/-- The centroid computations of the `setup_case` component loop: for
each wheel component, `trimesh` either yields a centroid (recorded in
insertion order, as the `wheel_centers` dict records it) or raises,
which the loop's `try`/`except` catches, printing a warning and
continuing with the next component. -/
def wheelCenterStep (geom : List Char → Option (ℚ × ℚ × ℚ))
    (acc : List (String × (ℚ × ℚ × ℚ)) × List String)
    (p : String × List Char) :
    List (String × (ℚ × ℚ × ℚ)) × List String :=
  if p.1 ∈ wheelNames then
    match geom p.2 with
    | some v => (acc.1 ++ [(p.1, v)], acc.2)
    | none =>
      (acc.1, acc.2 ++ ["Warning: Could not calculate centroid for " ++ p.1])
  else acc

def computeWheelCenters (geom : List Char → Option (ℚ × ℚ × ℚ))
    (stls : List (String × List Char)) :
    List (String × (ℚ × ℚ × ℚ)) × List String :=
  stls.foldl (wheelCenterStep geom) ([], [])

/-- Wheel centers in the form consumed by the content-level patch. -/
def centersToWheelCenters (centers : List (String × (ℚ × ℚ × ℚ))) :
    List WheelCenter :=
  centers.map (fun c => ⟨c.1.data, c.2.1, c.2.2.1, c.2.2.2⟩)

/-- Embedding of `CaseSetup._update_wheel_centers` at filesystem
level: a missing `0/U` file is a warning and a no-op; otherwise the
content-level substitution runs for every recorded wheel center and
the result is written back. -/
def updateWheelCentersFS (centers : List (String × (ℚ × ℚ × ℚ)))
    (dest : FPath) (fs : FS) : FS × List String :=
  match readFile (uFilePath dest) fs with
  | none => (fs, ["Warning: U file not found"])
  | some content =>
    (writeFile (uFilePath dest)
      (updateWheelCentersContent (centersToWheelCenters centers) content) fs, [])

/-- Embedding of `CaseSetup._update_decompose_par_dict` at filesystem
level: `if decompose_file.exists()` guards the read-substitute-write,
so an absent file is a no-op. -/
def updateDecomposeParDictFS (n : Nat) (dest : FPath) (fs : FS) : FS :=
  match readFile (decomposeParPath dest) fs with
  | none => fs
  | some content => writeFile (decomposeParPath dest) (reSubNOS n content) fs

/-- Embedding of `CaseSetup.setup_case`: remove the destination, copy
the template tree, place each mapped component file as
`constant/triSurface/<component>.stl`, compute wheel centroids
(per-component warnings on a caught centroid exception), patch the
`0/U` origins if any centroid was computed, and patch
`system/decomposeParDict`.  The model's filesystem operations are
total, so the outer `try`/`except` (which returns `False` only when a
filesystem call raises) never fires and `success` is `true`. -/
def setupCase (geom : List Char → Option (ℚ × ℚ × ℚ)) (base dest : FPath)
    (stls : List (String × List Char)) (n : Nat) (fs : FS) : SetupResult :=
  let fs1 := rmtree dest fs
  let fs2 := copytree base dest fs1
  let fs3 := stls.foldl
    (fun acc p => writeFile (triSurfacePath dest p.1) p.2 acc) fs2
  let cw := computeWheelCenters geom stls
  let fw := if cw.1.isEmpty then (fs3, ([] : List String))
            else updateWheelCentersFS cw.1 dest fs3
  let fs5 := updateDecomposeParDictFS n dest fw.1
  { fs := fs5, success := true, warnings := cw.2 ++ fw.2 }

/-! ## Filesystem lemmas -/

theorem underDir_append_self (root l : FPath) : underDir root (root ++ l) = true :=
  isPrefixOf_append_self root l

theorem not_under_of_disjoint {a b p : FPath}
    (h1 : underDir a b = false) (h2 : underDir b a = false)
    (hp : underDir a p = true) : underDir b p = false := by
  by_contra hb
  rw [Bool.not_eq_false] at hb
  have ha' := List.isPrefixOf_iff_prefix.mp hp
  have hb' := List.isPrefixOf_iff_prefix.mp hb
  rcases List.prefix_or_prefix_of_prefix ha' hb' with h | h
  · have : underDir a b = true := List.isPrefixOf_iff_prefix.mpr h
    rw [h1] at this
    cases this
  · have : underDir b a = true := List.isPrefixOf_iff_prefix.mpr h
    rw [h2] at this
    cases this

theorem entriesUnder_cons (root : FPath) (e : FPath × List Char) (fs : FS) :
    entriesUnder root (e :: fs) =
      if underDir root e.1 then e :: entriesUnder root fs
      else entriesUnder root fs :=
  List.filter_cons

theorem entriesUnder_append (root : FPath) (fs1 fs2 : FS) :
    entriesUnder root (fs1 ++ fs2) =
      entriesUnder root fs1 ++ entriesUnder root fs2 :=
  List.filter_append fs1 fs2

theorem entriesUnder_filter_keep {root : FPath} {p : FPath × List Char → Bool}
    (h : ∀ e, underDir root e.1 = true → p e = true) (fs : FS) :
    entriesUnder root (fs.filter p) = entriesUnder root fs := by
  unfold entriesUnder
  rw [List.filter_comm]
  exact List.filter_eq_self.mpr
    (fun e he => h e (by simpa using List.of_mem_filter he))

theorem entriesUnder_rmtree_self (dest : FPath) (fs : FS) :
    entriesUnder dest (rmtree dest fs) = [] := by
  unfold entriesUnder rmtree
  rw [List.filter_comm]
  exact List.filter_eq_nil_iff.mpr (fun e he => by simp [List.of_mem_filter he])

theorem entriesUnder_all_true {root : FPath} {l : FS}
    (h : ∀ e ∈ l, underDir root e.1 = true) : entriesUnder root l = l :=
  List.filter_eq_self.mpr h

theorem entriesUnder_all_false {root : FPath} {l : FS}
    (h : ∀ e ∈ l, underDir root e.1 = false) : entriesUnder root l = [] :=
  List.filter_eq_nil_iff.mpr (fun e he => by simp [h e he])

theorem entriesUnder_writeFile_under {root p : FPath} {c : List Char}
    (h : underDir root p = true) (fs : FS) :
    entriesUnder root (writeFile p c fs) = writeFile p c (entriesUnder root fs) := by
  show entriesUnder root ((p, c) :: fs.filter _) = (p, c) :: (entriesUnder root fs).filter _
  rw [entriesUnder_cons]
  simp only [h, if_true]
  unfold entriesUnder
  rw [List.filter_comm]

theorem entriesUnder_writeFile_not_under {root p : FPath} {c : List Char}
    (h : underDir root p = false) (fs : FS) :
    entriesUnder root (writeFile p c fs) = entriesUnder root fs := by
  show entriesUnder root ((p, c) :: fs.filter _) = _
  rw [entriesUnder_cons]
  simp only [h, Bool.false_eq_true, if_false]
  apply entriesUnder_filter_keep
  intro e he
  rw [bne_iff_ne]
  intro heq
  rw [heq] at he
  rw [he] at h
  cases h

theorem readFile_cons_hit {p : FPath} {e : FPath × List Char} {fs : FS}
    (he : (e.1 == p) = true) : readFile p (e :: fs) = some e.2 := by
  simp [readFile, List.find?_cons, he]

theorem readFile_cons_miss {p : FPath} {e : FPath × List Char} {fs : FS}
    (he : (e.1 == p) = false) : readFile p (e :: fs) = readFile p fs := by
  simp [readFile, List.find?_cons, he]

theorem readFile_entriesUnder {root p : FPath} (h : underDir root p = true) :
    ∀ fs : FS, readFile p (entriesUnder root fs) = readFile p fs := by
  intro fs
  induction fs with
  | nil => rfl
  | cons e fs ih =>
    rw [entriesUnder_cons]
    by_cases he : (e.1 == p) = true
    · have heq : e.1 = p := by simpa using he
      have hu : underDir root e.1 = true := by rw [heq]; exact h
      rw [if_pos hu, readFile_cons_hit he, readFile_cons_hit he]
    · have heb : (e.1 == p) = false := by
        revert he
        cases e.1 == p <;> simp
      by_cases hu : underDir root e.1 = true
      · rw [if_pos hu, readFile_cons_miss heb, readFile_cons_miss heb]
        exact ih
      · rw [if_neg hu, readFile_cons_miss heb]
        exact ih

theorem readFile_writeFile_self (p : FPath) (c : List Char) (fs : FS) :
    readFile p (writeFile p c fs) = some c := by
  show readFile p ((p, c) :: _) = some c
  rw [readFile_cons_hit (by simp)]

theorem readFile_filter_ne {p q : FPath} (h : p ≠ q) :
    ∀ fs : FS, readFile p (fs.filter (fun e => e.1 != q)) = readFile p fs := by
  intro fs
  induction fs with
  | nil => rfl
  | cons e fs ih =>
    rw [List.filter_cons]
    by_cases he : (e.1 == p) = true
    · have heq : e.1 = p := by simpa using he
      have hnq : (e.1 != q) = true := by
        rw [bne_iff_ne, heq]
        exact h
      rw [if_pos hnq, readFile_cons_hit he, readFile_cons_hit he]
    · have heb : (e.1 == p) = false := by
        revert he
        cases e.1 == p <;> simp
      by_cases hne : (e.1 != q) = true
      · rw [if_pos hne, readFile_cons_miss heb, readFile_cons_miss heb]
        exact ih
      · rw [if_neg hne, readFile_cons_miss heb]
        exact ih

theorem readFile_writeFile_other {p q : FPath} {c : List Char} (h : p ≠ q)
    (fs : FS) : readFile p (writeFile q c fs) = readFile p fs := by
  show readFile p ((q, c) :: fs.filter _) = _
  rw [readFile_cons_miss (beq_eq_false_iff_ne.mpr (Ne.symm h)),
    readFile_filter_ne h fs]

/-! ## C9: assembly-level idempotence -/

theorem underDir_triSurfacePath (dest : FPath) (c : String) :
    underDir dest (triSurfacePath dest c) = true :=
  underDir_append_self dest _

theorem underDir_uFilePath (dest : FPath) :
    underDir dest (uFilePath dest) = true :=
  underDir_append_self dest _

theorem underDir_decomposeParPath (dest : FPath) :
    underDir dest (decomposeParPath dest) = true :=
  underDir_append_self dest _

theorem entriesUnder_base_rmtree {base dest : FPath}
    (h1 : underDir base dest = false) (h2 : underDir dest base = false)
    (fs : FS) : entriesUnder base (rmtree dest fs) = entriesUnder base fs := by
  unfold rmtree
  apply entriesUnder_filter_keep
  intro e he
  rw [Bool.not_eq_true']
  exact not_under_of_disjoint h1 h2 he

theorem entriesUnder_dest_after_copy {base dest : FPath}
    (h1 : underDir base dest = false) (h2 : underDir dest base = false)
    (fs : FS) :
    entriesUnder dest (copytree base dest (rmtree dest fs))
      = (entriesUnder base fs).map (reroot base dest) := by
  unfold copytree
  rw [entriesUnder_append, entriesUnder_rmtree_self, List.nil_append]
  rw [entriesUnder_base_rmtree h1 h2]
  apply entriesUnder_all_true
  intro e he
  obtain ⟨e', _, rfl⟩ := List.mem_map.mp he
  exact underDir_append_self dest _

theorem entriesUnder_base_copytree {base dest : FPath}
    (h1 : underDir base dest = false) (h2 : underDir dest base = false)
    (fs : FS) :
    entriesUnder base (copytree base dest (rmtree dest fs))
      = entriesUnder base fs := by
  unfold copytree
  rw [entriesUnder_append, entriesUnder_base_rmtree h1 h2]
  have hnil : entriesUnder base
      ((entriesUnder base fs).map (reroot base dest)) = [] := by
    apply entriesUnder_all_false
    intro e he
    obtain ⟨e', _, rfl⟩ := List.mem_map.mp he
    exact not_under_of_disjoint h2 h1 (underDir_append_self dest _)
  rw [hnil, List.append_nil]

theorem entriesUnder_foldWrites_congr (dest : FPath)
    (stls : List (String × List Char)) :
    ∀ (A B : FS), entriesUnder dest A = entriesUnder dest B →
      entriesUnder dest (stls.foldl
          (fun acc p => writeFile (triSurfacePath dest p.1) p.2 acc) A)
        = entriesUnder dest (stls.foldl
          (fun acc p => writeFile (triSurfacePath dest p.1) p.2 acc) B) := by
  induction stls with
  | nil => intro A B h; exact h
  | cons s stls ih =>
    intro A B h
    simp only [List.foldl_cons]
    apply ih
    rw [entriesUnder_writeFile_under (underDir_triSurfacePath dest s.1) A,
        entriesUnder_writeFile_under (underDir_triSurfacePath dest s.1) B, h]

theorem entriesUnder_base_foldWrites {base dest : FPath}
    (h1 : underDir base dest = false) (h2 : underDir dest base = false)
    (stls : List (String × List Char)) :
    ∀ A : FS, entriesUnder base (stls.foldl
        (fun acc p => writeFile (triSurfacePath dest p.1) p.2 acc) A)
      = entriesUnder base A := by
  induction stls with
  | nil => intro A; rfl
  | cons s stls ih =>
    intro A
    simp only [List.foldl_cons]
    rw [ih, entriesUnder_writeFile_not_under
      (not_under_of_disjoint h2 h1 (underDir_triSurfacePath dest s.1))]

theorem entriesUnder_update_congr (dest : FPath)
    (centers : List (String × (ℚ × ℚ × ℚ))) (A B : FS)
    (h : entriesUnder dest A = entriesUnder dest B) :
    entriesUnder dest (updateWheelCentersFS centers dest A).1
      = entriesUnder dest (updateWheelCentersFS centers dest B).1 := by
  unfold updateWheelCentersFS
  have hr : readFile (uFilePath dest) A = readFile (uFilePath dest) B := by
    rw [← readFile_entriesUnder (underDir_uFilePath dest) A,
        ← readFile_entriesUnder (underDir_uFilePath dest) B, h]
  rw [hr]
  cases hB : readFile (uFilePath dest) B with
  | none => exact h
  | some content =>
    simp only
    rw [entriesUnder_writeFile_under (underDir_uFilePath dest) A,
        entriesUnder_writeFile_under (underDir_uFilePath dest) B, h]

theorem entriesUnder_base_update {base dest : FPath}
    (h1 : underDir base dest = false) (h2 : underDir dest base = false)
    (centers : List (String × (ℚ × ℚ × ℚ))) (A : FS) :
    entriesUnder base (updateWheelCentersFS centers dest A).1
      = entriesUnder base A := by
  unfold updateWheelCentersFS
  cases hA : readFile (uFilePath dest) A with
  | none => rfl
  | some content =>
    simp only
    exact entriesUnder_writeFile_not_under
      (not_under_of_disjoint h2 h1 (underDir_uFilePath dest)) A

theorem entriesUnder_decompose_congr (dest : FPath) (n : Nat) (A B : FS)
    (h : entriesUnder dest A = entriesUnder dest B) :
    entriesUnder dest (updateDecomposeParDictFS n dest A)
      = entriesUnder dest (updateDecomposeParDictFS n dest B) := by
  unfold updateDecomposeParDictFS
  have hr : readFile (decomposeParPath dest) A
      = readFile (decomposeParPath dest) B := by
    rw [← readFile_entriesUnder (underDir_decomposeParPath dest) A,
        ← readFile_entriesUnder (underDir_decomposeParPath dest) B, h]
  rw [hr]
  cases hB : readFile (decomposeParPath dest) B with
  | none => exact h
  | some content =>
    simp only
    rw [entriesUnder_writeFile_under (underDir_decomposeParPath dest) A,
        entriesUnder_writeFile_under (underDir_decomposeParPath dest) B, h]

theorem entriesUnder_base_decompose {base dest : FPath}
    (h1 : underDir base dest = false) (h2 : underDir dest base = false)
    (n : Nat) (A : FS) :
    entriesUnder base (updateDecomposeParDictFS n dest A)
      = entriesUnder base A := by
  unfold updateDecomposeParDictFS
  cases hA : readFile (decomposeParPath dest) A with
  | none => rfl
  | some content =>
    simp only
    exact entriesUnder_writeFile_not_under
      (not_under_of_disjoint h2 h1 (underDir_decomposeParPath dest)) A

theorem setupCase_dest_congr (geom : List Char → Option (ℚ × ℚ × ℚ))
    (base dest : FPath) (stls : List (String × List Char)) (n : Nat)
    (h1 : underDir base dest = false) (h2 : underDir dest base = false)
    (fs fs' : FS) (h : entriesUnder base fs = entriesUnder base fs') :
    entriesUnder dest (setupCase geom base dest stls n fs).fs
      = entriesUnder dest (setupCase geom base dest stls n fs').fs := by
  unfold setupCase
  simp only
  have hcopy : entriesUnder dest (copytree base dest (rmtree dest fs))
      = entriesUnder dest (copytree base dest (rmtree dest fs')) := by
    rw [entriesUnder_dest_after_copy h1 h2, entriesUnder_dest_after_copy h1 h2, h]
  have hfold := entriesUnder_foldWrites_congr dest stls _ _ hcopy
  apply entriesUnder_decompose_congr
  by_cases hcw : (computeWheelCenters geom stls).1.isEmpty = true
  · simp only [hcw, if_true]
    exact hfold
  · rw [Bool.not_eq_true] at hcw
    simp only [hcw, Bool.false_eq_true, if_false]
    exact entriesUnder_update_congr dest _ _ _ hfold

theorem setupCase_preserves_base (geom : List Char → Option (ℚ × ℚ × ℚ))
    (base dest : FPath) (stls : List (String × List Char)) (n : Nat)
    (h1 : underDir base dest = false) (h2 : underDir dest base = false)
    (fs : FS) :
    entriesUnder base (setupCase geom base dest stls n fs).fs
      = entriesUnder base fs := by
  unfold setupCase
  simp only
  rw [entriesUnder_base_decompose h1 h2]
  by_cases hcw : (computeWheelCenters geom stls).1.isEmpty = true
  · simp only [hcw, if_true]
    rw [entriesUnder_base_foldWrites h1 h2]
    exact entriesUnder_base_copytree h1 h2 fs
  · rw [Bool.not_eq_true] at hcw
    simp only [hcw, Bool.false_eq_true, if_false]
    rw [entriesUnder_base_update h1 h2]
    rw [entriesUnder_base_foldWrites h1 h2]
    exact entriesUnder_base_copytree h1 h2 fs

/-- C9: running assembly twice with the same template tree, component
mapping (name and file content) and processor count yields a
byte-identical destination tree: each run removes the destination and
recreates it from the template, so the second run's destination equals
the first run's, whatever state the first run left behind.  The only
assumption is that template and destination are distinct directories
(neither lies inside the other). -/
theorem assembly_idempotent (geom : List Char → Option (ℚ × ℚ × ℚ))
    (base dest : FPath) (stls : List (String × List Char)) (n : Nat)
    (h1 : underDir base dest = false) (h2 : underDir dest base = false)
    (fs : FS) :
    entriesUnder dest
        (setupCase geom base dest stls n
          (setupCase geom base dest stls n fs).fs).fs
      = entriesUnder dest (setupCase geom base dest stls n fs).fs :=
  setupCase_dest_congr geom base dest stls n h1 h2 _ _
    (setupCase_preserves_base geom base dest stls n h1 h2 fs)

/-- Witness for `assembly_idempotent`: a two-file template, one
component, processor count 4, starting from a filesystem already
holding stale destination content. -/
theorem assembly_idempotent_witness :
    entriesUnder ["case"]
        (setupCase (fun _ => none) ["baseCase"] ["case"]
          [("mainBody", "solid".data)] 4
          (setupCase (fun _ => none) ["baseCase"] ["case"]
            [("mainBody", "solid".data)] 4
            [(["baseCase", "system", "decomposeParDict"],
                "numberOfSubdomains 2;".data),
             (["baseCase", "0", "U"], "ufile".data),
             (["case", "stale"], "old".data)]).fs).fs
      = entriesUnder ["case"]
          (setupCase (fun _ => none) ["baseCase"] ["case"]
            [("mainBody", "solid".data)] 4
            [(["baseCase", "system", "decomposeParDict"],
                "numberOfSubdomains 2;".data),
             (["baseCase", "0", "U"], "ufile".data),
             (["case", "stale"], "old".data)]).fs :=
  assembly_idempotent (fun _ => none) ["baseCase"] ["case"]
    [("mainBody", "solid".data)] 4 (by decide) (by decide) _

/-! ## C4: a caught centroid exception does not abort assembly -/

theorem foldl_warn_mono (geom : List Char → Option (ℚ × ℚ × ℚ)) (m : String) :
    ∀ (l : List (String × List Char))
      (acc : List (String × (ℚ × ℚ × ℚ)) × List String),
      m ∈ acc.2 → m ∈ (l.foldl (wheelCenterStep geom) acc).2 := by
  intro l
  induction l with
  | nil => intro acc h; exact h
  | cons e l ih =>
    intro acc h
    apply ih
    unfold wheelCenterStep
    split
    · split
      · exact h
      · exact List.mem_append_left _ h
    · exact h

theorem computeWheelCenters_warns (geom : List Char → Option (ℚ × ℚ × ℚ))
    (c : String) (content : List Char)
    (hwheel : c ∈ wheelNames) (hthrow : geom content = none) :
    ∀ (l : List (String × List Char))
      (acc : List (String × (ℚ × ℚ × ℚ)) × List String),
      (c, content) ∈ l →
      ("Warning: Could not calculate centroid for " ++ c)
        ∈ (l.foldl (wheelCenterStep geom) acc).2 := by
  intro l
  induction l with
  | nil => intro acc h; simp at h
  | cons e l ih =>
    intro acc hm
    rcases List.mem_cons.mp hm with heq | hmem
    · rw [List.foldl_cons]
      apply foldl_warn_mono
      rw [← heq]
      unfold wheelCenterStep
      simp only [hwheel, if_true, hthrow]
      exact List.mem_append_right _ (List.mem_singleton.mpr rfl)
    · rw [List.foldl_cons]
      exact ih _ hmem

theorem string_ext {s t : String} (h : s.data = t.data) : s = t := by
  cases s
  cases t
  exact congrArg String.mk h

theorem triSurfacePath_inj {dest : FPath} {p q : String}
    (h : triSurfacePath dest p = triSurfacePath dest q) : p = q := by
  have h1 := List.append_cancel_left h
  injection h1 with _ h2
  injection h2 with _ h3
  injection h3 with h4
  have h5 := congrArg String.data h4
  rw [String.data_append, String.data_append] at h5
  exact string_ext (List.append_cancel_right h5)

theorem triSurfacePath_ne_uFilePath (dest : FPath) (p : String) :
    triSurfacePath dest p ≠ uFilePath dest := by
  intro h
  have h1 := List.append_cancel_left h
  injection h1 with h2
  exact absurd h2 (by decide)

theorem triSurfacePath_ne_decomposeParPath (dest : FPath) (p : String) :
    triSurfacePath dest p ≠ decomposeParPath dest := by
  intro h
  have h1 := List.append_cancel_left h
  injection h1 with h2
  exact absurd h2 (by decide)

theorem readFile_foldWrites_other (dest : FPath) (p : String) :
    ∀ (l : List (String × List Char)) (A : FS), p ∉ l.map Prod.fst →
      readFile (triSurfacePath dest p)
          (l.foldl (fun acc e => writeFile (triSurfacePath dest e.1) e.2 acc) A)
        = readFile (triSurfacePath dest p) A := by
  intro l
  induction l with
  | nil => intro A _; rfl
  | cons e l ih =>
    intro A hp
    rw [List.map_cons] at hp
    have hne : p ≠ e.1 := fun hh => hp (hh ▸ List.mem_cons_self _ _)
    have hp' : p ∉ l.map Prod.fst := fun hh => hp (List.mem_cons_of_mem _ hh)
    simp only [List.foldl_cons]
    rw [ih _ hp']
    exact readFile_writeFile_other (fun hh => hne (triSurfacePath_inj hh)) A

theorem readFile_foldWrites (dest : FPath) :
    ∀ (l : List (String × List Char)) (A : FS) (p : String) (q : List Char),
      (p, q) ∈ l → (l.map Prod.fst).Nodup →
      readFile (triSurfacePath dest p)
          (l.foldl (fun acc e => writeFile (triSurfacePath dest e.1) e.2 acc) A)
        = some q := by
  intro l
  induction l with
  | nil => intro A p q hm _; simp at hm
  | cons e l ih =>
    intro A p q hm hnd
    rw [List.map_cons] at hnd
    simp only [List.foldl_cons]
    rcases List.mem_cons.mp hm with heq | hmem
    · have he1 : e.1 = p := by rw [← heq]
      have he2 : e.2 = q := by rw [← heq]
      have hp : p ∉ l.map Prod.fst := by
        rw [← he1]
        exact (List.nodup_cons.mp hnd).1
      rw [readFile_foldWrites_other dest p l _ hp, ← he1, ← he2]
      exact readFile_writeFile_self _ _ _
    · exact ih _ p q hmem (List.nodup_cons.mp hnd).2

theorem readFile_tri_update (centers : List (String × (ℚ × ℚ × ℚ)))
    (dest : FPath) (fs : FS) (p : String) :
    readFile (triSurfacePath dest p) (updateWheelCentersFS centers dest fs).1
      = readFile (triSurfacePath dest p) fs := by
  unfold updateWheelCentersFS
  cases hA : readFile (uFilePath dest) fs with
  | none => rfl
  | some content =>
    simp only
    exact readFile_writeFile_other (triSurfacePath_ne_uFilePath dest p) fs

theorem readFile_tri_decompose (n : Nat) (dest : FPath) (fs : FS) (p : String) :
    readFile (triSurfacePath dest p) (updateDecomposeParDictFS n dest fs)
      = readFile (triSurfacePath dest p) fs := by
  unfold updateDecomposeParDictFS
  cases hA : readFile (decomposeParPath dest) fs with
  | none => rfl
  | some content =>
    simp only
    exact readFile_writeFile_other (triSurfacePath_ne_decomposeParPath dest p) fs

/-- C4 counterexample: the claim's exception clause is false on the
code.  With a wheel component (`FL`) whose centroid computation
throws, assembly does not abort: `setup_case` still succeeds, only a
warning naming `FL` is printed (the component loop's `try`/`except`
catches the exception and continues), the later component (`RR`) is
still placed, and the later processor-count patch still runs. -/
theorem setup_centroid_throw_not_abort_cx :
    (setupCase
        (fun c => if c = "badstl".data then none
          else some (⟨1, 1, by decide, by decide⟩, ⟨1, 1, by decide, by decide⟩,
                     ⟨1, 1, by decide, by decide⟩))
        ["baseCase"] ["case"]
        [("FL", "badstl".data), ("RR", "good".data)] 4
        [(["baseCase", "system", "decomposeParDict"],
            "numberOfSubdomains 2;".data)]).success = true ∧
    "Warning: Could not calculate centroid for FL" ∈
      (setupCase
        (fun c => if c = "badstl".data then none
          else some (⟨1, 1, by decide, by decide⟩, ⟨1, 1, by decide, by decide⟩,
                     ⟨1, 1, by decide, by decide⟩))
        ["baseCase"] ["case"]
        [("FL", "badstl".data), ("RR", "good".data)] 4
        [(["baseCase", "system", "decomposeParDict"],
            "numberOfSubdomains 2;".data)]).warnings ∧
    readFile (triSurfacePath ["case"] "RR")
      (setupCase
        (fun c => if c = "badstl".data then none
          else some (⟨1, 1, by decide, by decide⟩, ⟨1, 1, by decide, by decide⟩,
                     ⟨1, 1, by decide, by decide⟩))
        ["baseCase"] ["case"]
        [("FL", "badstl".data), ("RR", "good".data)] 4
        [(["baseCase", "system", "decomposeParDict"],
            "numberOfSubdomains 2;".data)]).fs = some "good".data ∧
    readFile (decomposeParPath ["case"])
      (setupCase
        (fun c => if c = "badstl".data then none
          else some (⟨1, 1, by decide, by decide⟩, ⟨1, 1, by decide, by decide⟩,
                     ⟨1, 1, by decide, by decide⟩))
        ["baseCase"] ["case"]
        [("FL", "badstl".data), ("RR", "good".data)] 4
        [(["baseCase", "system", "decomposeParDict"],
            "numberOfSubdomains 2;".data)]).fs
      = some "numberOfSubdomains 4;".data := by
  refine ⟨rfl, by decide, by decide, ?_⟩
  have hsub : reSubNOS 4 "numberOfSubdomains 2;".data
      = "numberOfSubdomains 4;".data := by
    have hsplit : "numberOfSubdomains 2;".data
        = nosLit ++ ([' '] ++ (['2'] ++ (';' :: ([] : List Char)))) := by decide
    rw [hsplit, reSubNOS_of_match (matchNOSAt_line [' '] ['2'] [] (by decide)
      (by decide) (by decide) (by decide)), reSubNOS_nil]
    decide
  rw [← hsub]
  rfl

/-- C4 amended: geometry and patch failures in steps 3–5 are non-fatal
per-component warnings after which assembly continues — including when
the centroid computation itself throws: the exception is caught by the
component loop's `try`/`except`, a warning naming the component is
printed, that component's origin patch is skipped, and assembly
proceeds; every component's file placement (prior and subsequent) is
present in the final destination. -/
theorem setup_centroid_throw_continues
    (geom : List Char → Option (ℚ × ℚ × ℚ)) (base dest : FPath)
    (stls : List (String × List Char)) (n : Nat) (fs : FS)
    (c : String) (content : List Char)
    (hmem : (c, content) ∈ stls) (hwheel : c ∈ wheelNames)
    (hthrow : geom content = none)
    (hnodup : (stls.map Prod.fst).Nodup) :
    (setupCase geom base dest stls n fs).success = true ∧
    ("Warning: Could not calculate centroid for " ++ c)
      ∈ (setupCase geom base dest stls n fs).warnings ∧
    ∀ p q, (p, q) ∈ stls →
      readFile (triSurfacePath dest p) (setupCase geom base dest stls n fs).fs
        = some q := by
  refine ⟨rfl, ?_, ?_⟩
  · show _ ∈ (computeWheelCenters geom stls).2 ++ _
    exact List.mem_append_left _
      (computeWheelCenters_warns geom c content hwheel hthrow stls ([], []) hmem)
  · intro p q hpq
    show readFile _ (updateDecomposeParDictFS n dest _) = some q
    rw [readFile_tri_decompose]
    by_cases hcw : (computeWheelCenters geom stls).1.isEmpty = true
    · simp only [hcw, if_true]
      exact readFile_foldWrites dest stls _ p q hpq hnodup
    · rw [Bool.not_eq_true] at hcw
      simp only [hcw, Bool.false_eq_true, if_false]
      rw [readFile_tri_update]
      exact readFile_foldWrites dest stls _ p q hpq hnodup

/-- Witness for `setup_centroid_throw_continues` at the counterexample
input, showing both placements present. -/
theorem setup_centroid_throw_continues_witness :
    (setupCase (fun _ => none) ["baseCase"] ["case"]
        [("FL", "badstl".data), ("RR", "good".data)] 4 []).success = true ∧
    ("Warning: Could not calculate centroid for " ++ "FL") ∈
      (setupCase (fun _ => none) ["baseCase"] ["case"]
        [("FL", "badstl".data), ("RR", "good".data)] 4 []).warnings ∧
    ∀ p q, (p, q) ∈ [("FL", "badstl".data), ("RR", "good".data)] →
      readFile (triSurfacePath ["case"] p)
          (setupCase (fun _ => none) ["baseCase"] ["case"]
            [("FL", "badstl".data), ("RR", "good".data)] 4 []).fs = some q :=
  setup_centroid_throw_continues (fun _ => none) ["baseCase"] ["case"]
    [("FL", "badstl".data), ("RR", "good".data)] 4 [] "FL" "badstl".data
    (by decide) (by decide) rfl (by decide)

/-! ## C10: two canonical names can bind the same source file -/

/-- C10: the resolver requires no distinctness between bound files:
for the listing `flrr.stl, fr.stl, rl.stl, mainbody.stl`, every
component resolves uniquely, with both `FL` and `RR` bound to the same
file `flrr.stl`; assembly then copies that one source content into the
two differently named component files `FL.stl` and `RR.stl`. -/
theorem duplicate_binding_possible :
    (findStlFiles (fun _ _ => 0)
        ["flrr.stl".data, "fr.stl".data, "rl.stl".data, "mainbody.stl".data]).1
      = [("FL".data, "flrr.stl".data), ("FR".data, "fr.stl".data),
         ("RL".data, "rl.stl".data), ("RR".data, "flrr.stl".data),
         ("mainBody".data, "mainbody.stl".data)] ∧
    readFile (triSurfacePath ["case"] "FL")
        (setupCase (fun _ => none) ["baseCase"] ["case"]
          [("FL", "meshbytes".data), ("RR", "meshbytes".data)] 4 []).fs
      = some "meshbytes".data ∧
    readFile (triSurfacePath ["case"] "RR")
        (setupCase (fun _ => none) ["baseCase"] ["case"]
          [("FL", "meshbytes".data), ("RR", "meshbytes".data)] 4 []).fs
      = some "meshbytes".data := by
  refine ⟨?_, ?_, ?_⟩ <;> decide

/-! ## PipelineExecutor
(`main.py`, `OpenFOAMRunner.run_full_simulation`; the stage sequence
and short-circuiting are identical in
`OpenFOAMParallelRunner.run_all` of `my-previous-runner.py`, which
prints the elapsed time in the same success-only position)

Each external tool invocation is a synchronous blocking call whose only
observed effect is its exit status; the environment `ExecEnv` records,
for each tool (and for each surface-feature-extraction dictionary),
whether that invocation exits with code zero.  A run produces the list
of invocations actually launched, in order (the trace), the returned
boolean, the failing step name (printed as `Simulation failed at
step: <name>`), and the printed messages relevant to the outcome. -/

/-- Exit-status environment: `true` means the spawned process returns
code zero. -/
structure ExecEnv where
  blockMesh : Bool
  surfaceFeatureExtract : String → Bool
  snappyHexMesh : Bool
  decomposePar : Bool
  simpleFoam : Bool
  reconstructPar : Bool

/-- The fixed fan-out dictionary list of
`run_all_surfaceFeatureExtract`. -/
def sfeDicts : List String :=
  ["system/surfaceFeatureExtract_mainBodyDict",
   "system/surfaceFeatureExtract_FLDict",
   "system/surfaceFeatureExtract_FRDict",
   "system/surfaceFeatureExtract_RLDict",
   "system/surfaceFeatureExtract_RRDict"]

/-- `run_blockMesh`: one invocation, its exit status. -/
def runBlockMesh (env : ExecEnv) : List String × Bool :=
  (["blockMesh"], env.blockMesh)

/-- `run_surfaceFeatureExtract(dictPath)`. -/
def runSurfaceFeatureExtract (env : ExecEnv) (d : String) :
    List String × Bool :=
  (["surfaceFeatureExtract " ++ d], env.surfaceFeatureExtract d)

/-- `run_snappyHexMesh`. -/
def runSnappyHexMesh (env : ExecEnv) : List String × Bool :=
  (["snappyHexMesh"], env.snappyHexMesh)

/-- `decompose_case`. -/
def decomposeCase (env : ExecEnv) : List String × Bool :=
  (["decomposePar"], env.decomposePar)

/-- `run_parallel_simpleFoam` (one mpirun launch). -/
def runParallelSimpleFoam (env : ExecEnv) : List String × Bool :=
  (["mpirun simpleFoam"], env.simpleFoam)

/-- `reconstruct_case`. -/
def reconstructCase (env : ExecEnv) : List String × Bool :=
  (["reconstructPar"], env.reconstructPar)

/-- The fan-out loop of `run_all_surfaceFeatureExtract`: invoke the
members in order, returning `False` at the first non-zero exit, never
invoking the remaining members. -/
def runAllSFEGo (env : ExecEnv) : List String → List String × Bool
  | [] => ([], true)
  | d :: ds =>
    let r := runSurfaceFeatureExtract env d
    if r.2 then
      let rest := runAllSFEGo env ds
      (r.1 ++ rest.1, rest.2)
    else (r.1, false)

/-- `run_all_surfaceFeatureExtract`. -/
def runAllSurfaceFeatureExtract (env : ExecEnv) : List String × Bool :=
  runAllSFEGo env sfeDicts

/-- The `steps` list of `run_full_simulation`, in source order. -/
def pipelineSteps : List (String × (ExecEnv → List String × Bool)) :=
  [("Background mesh generation", runBlockMesh),
   ("Surface feature extraction", runAllSurfaceFeatureExtract),
   ("Mesh generation", runSnappyHexMesh),
   ("Case decomposition", decomposeCase),
   ("Parallel solver", runParallelSimpleFoam),
   ("Case reconstruction", reconstructCase)]

/-- The stage loop of `run_full_simulation`: run each step in order;
on the first step whose function returns `False`, stop — no retry, no
later step — remembering that step's name. -/
def runStepsGo (env : ExecEnv) :
    List (String × (ExecEnv → List String × Bool)) →
    List String × Option String
  | [] => ([], none)
  | (name, f) :: rest =>
    let r := f env
    if r.2 then
      let rr := runStepsGo env rest
      (r.1 ++ rr.1, rr.2)
    else (r.1, some name)

/-- Observable outcome of `run_full_simulation`. -/
structure RunOutcome where
  trace : List String
  success : Bool
  failedStep : Option String
  log : List String

/-- Embedding of `run_full_simulation`: `time.time()` is read before
the loop; on failure the method prints the failing step and returns
`False` without printing the elapsed time; only the success path
prints `Total time elapsed`. -/
def runFullSimulation (env : ExecEnv) : RunOutcome :=
  let r := runStepsGo env pipelineSteps
  { trace := r.1
    success := r.2.isNone
    failedStep := r.2
    log := match r.2 with
      | some name => ["Simulation failed at step: " ++ name]
      | none => ["Full simulation completed successfully", "Total time elapsed"] }

/-- The per-stage success predicates, in stage order (the fan-out stage
succeeds exactly when all five members exit zero). -/
def stageOks (env : ExecEnv) : List Bool :=
  [env.blockMesh, sfeDicts.all env.surfaceFeatureExtract, env.snappyHexMesh,
   env.decomposePar, env.simpleFoam, env.reconstructPar]

/-- The stage names printed by the pipeline, in order. -/
def stageNames : List String :=
  ["Background mesh generation", "Surface feature extraction",
   "Mesh generation", "Case decomposition", "Parallel solver",
   "Case reconstruction"]

/-- The external commands belonging to each stage. -/
def stageCmds : List (List String) :=
  [["blockMesh"], sfeDicts.map (fun d => "surfaceFeatureExtract " ++ d),
   ["snappyHexMesh"], ["decomposePar"], ["mpirun simpleFoam"],
   ["reconstructPar"]]

theorem runAllSFEGo_all_true (env : ExecEnv) :
    ∀ ds : List String, (∀ d ∈ ds, env.surfaceFeatureExtract d = true) →
      runAllSFEGo env ds = (ds.map (fun d => "surfaceFeatureExtract " ++ d), true) := by
  intro ds
  induction ds with
  | nil => intro _; rfl
  | cons d ds ih =>
    intro h
    have hd := h d (List.mem_cons_self d ds)
    simp [runAllSFEGo, runSurfaceFeatureExtract, hd,
      ih (fun d' hd' => h d' (List.mem_cons_of_mem d hd'))]

/-- C1: if the stages before stage `k` all succeed and stage `k` fails
(a single stage, or the fan-out stage through one of its members),
then the reported failure names stage `k`; no command of any later
stage is ever invoked; within the fan-out, no member after a failing
member is ever invoked; and no command is invoked twice (no retry). -/
theorem pipeline_short_circuit (env : ExecEnv) (k : Nat) (hk : k < 6)
    (hpre : ∀ j, j < k → (stageOks env).getD j false = true)
    (hfail : (stageOks env).getD k false = false) :
    (runFullSimulation env).failedStep = some (stageNames.getD k "") ∧
    (runFullSimulation env).success = false ∧
    (∀ j, k < j → j < 6 → ∀ cmd ∈ stageCmds.getD j [],
      cmd ∉ (runFullSimulation env).trace) ∧
    (∀ i j, i < j → j < 5 →
      env.surfaceFeatureExtract (sfeDicts.getD i "") = false →
      ("surfaceFeatureExtract " ++ sfeDicts.getD j "")
        ∉ (runFullSimulation env).trace) ∧
    (runFullSimulation env).trace.Nodup := by
  interval_cases k
  · -- stage 0 (blockMesh) fails
    have h0 : env.blockMesh = false := by simpa [stageOks] using hfail
    have hrun : runFullSimulation env = ⟨["blockMesh"], false,
        some "Background mesh generation",
        ["Simulation failed at step: Background mesh generation"]⟩ := by
      simp [runFullSimulation, runStepsGo, pipelineSteps, runBlockMesh, h0]
    rw [hrun]
    refine ⟨rfl, rfl, ?_, ?_, by decide⟩
    · intro j hj1 hj2 cmd hcmd
      interval_cases j <;> revert cmd <;> decide
    · intro i j hij hj _
      interval_cases j <;> decide
  · -- stage 1 (surface feature extraction fan-out) fails
    have h0 : env.blockMesh = true := by
      simpa [stageOks] using hpre 0 (by omega)
    have h1 : sfeDicts.all env.surfaceFeatureExtract = false := by
      simpa [stageOks] using hfail
    by_cases s0 : env.surfaceFeatureExtract
        "system/surfaceFeatureExtract_mainBodyDict" = true
    case neg =>
      rw [Bool.not_eq_true] at s0
      have hrun : runFullSimulation env = ⟨["blockMesh",
          "surfaceFeatureExtract system/surfaceFeatureExtract_mainBodyDict"],
          false, some "Surface feature extraction",
          ["Simulation failed at step: Surface feature extraction"]⟩ := by
        simp [runFullSimulation, runStepsGo, pipelineSteps, runBlockMesh, h0,
          runAllSurfaceFeatureExtract, runAllSFEGo, sfeDicts,
          runSurfaceFeatureExtract, s0]
      rw [hrun]
      refine ⟨rfl, rfl, ?_, ?_, by decide⟩
      · intro j hj1 hj2 cmd hcmd
        interval_cases j <;> revert cmd <;> decide
      · intro i j hij hj hsfei
        interval_cases j <;> interval_cases i <;> decide
    case pos =>
    by_cases s1 : env.surfaceFeatureExtract
        "system/surfaceFeatureExtract_FLDict" = true
    case neg =>
      rw [Bool.not_eq_true] at s1
      have hrun : runFullSimulation env = ⟨["blockMesh",
          "surfaceFeatureExtract system/surfaceFeatureExtract_mainBodyDict",
          "surfaceFeatureExtract system/surfaceFeatureExtract_FLDict"],
          false, some "Surface feature extraction",
          ["Simulation failed at step: Surface feature extraction"]⟩ := by
        simp [runFullSimulation, runStepsGo, pipelineSteps, runBlockMesh, h0,
          runAllSurfaceFeatureExtract, runAllSFEGo, sfeDicts,
          runSurfaceFeatureExtract, s0, s1]
      rw [hrun]
      refine ⟨rfl, rfl, ?_, ?_, by decide⟩
      · intro j hj1 hj2 cmd hcmd
        interval_cases j <;> revert cmd <;> decide
      · intro i j hij hj hsfei
        interval_cases j <;> interval_cases i <;>
          first
            | decide
            | (revert hsfei; simp [sfeDicts, s0])
    case pos =>
    by_cases s2 : env.surfaceFeatureExtract
        "system/surfaceFeatureExtract_FRDict" = true
    case neg =>
      rw [Bool.not_eq_true] at s2
      have hrun : runFullSimulation env = ⟨["blockMesh",
          "surfaceFeatureExtract system/surfaceFeatureExtract_mainBodyDict",
          "surfaceFeatureExtract system/surfaceFeatureExtract_FLDict",
          "surfaceFeatureExtract system/surfaceFeatureExtract_FRDict"],
          false, some "Surface feature extraction",
          ["Simulation failed at step: Surface feature extraction"]⟩ := by
        simp [runFullSimulation, runStepsGo, pipelineSteps, runBlockMesh, h0,
          runAllSurfaceFeatureExtract, runAllSFEGo, sfeDicts,
          runSurfaceFeatureExtract, s0, s1, s2]
      rw [hrun]
      refine ⟨rfl, rfl, ?_, ?_, by decide⟩
      · intro j hj1 hj2 cmd hcmd
        interval_cases j <;> revert cmd <;> decide
      · intro i j hij hj hsfei
        interval_cases j <;> interval_cases i <;>
          first
            | decide
            | (revert hsfei; simp [sfeDicts, s0, s1])
    case pos =>
    by_cases s3 : env.surfaceFeatureExtract
        "system/surfaceFeatureExtract_RLDict" = true
    case neg =>
      rw [Bool.not_eq_true] at s3
      have hrun : runFullSimulation env = ⟨["blockMesh",
          "surfaceFeatureExtract system/surfaceFeatureExtract_mainBodyDict",
          "surfaceFeatureExtract system/surfaceFeatureExtract_FLDict",
          "surfaceFeatureExtract system/surfaceFeatureExtract_FRDict",
          "surfaceFeatureExtract system/surfaceFeatureExtract_RLDict"],
          false, some "Surface feature extraction",
          ["Simulation failed at step: Surface feature extraction"]⟩ := by
        simp [runFullSimulation, runStepsGo, pipelineSteps, runBlockMesh, h0,
          runAllSurfaceFeatureExtract, runAllSFEGo, sfeDicts,
          runSurfaceFeatureExtract, s0, s1, s2, s3]
      rw [hrun]
      refine ⟨rfl, rfl, ?_, ?_, by decide⟩
      · intro j hj1 hj2 cmd hcmd
        interval_cases j <;> revert cmd <;> decide
      · intro i j hij hj hsfei
        interval_cases j <;> interval_cases i <;>
          first
            | decide
            | (revert hsfei; simp [sfeDicts, s0, s1, s2])
    case pos =>
    by_cases s4 : env.surfaceFeatureExtract
        "system/surfaceFeatureExtract_RRDict" = true
    case neg =>
      rw [Bool.not_eq_true] at s4
      have hrun : runFullSimulation env = ⟨["blockMesh",
          "surfaceFeatureExtract system/surfaceFeatureExtract_mainBodyDict",
          "surfaceFeatureExtract system/surfaceFeatureExtract_FLDict",
          "surfaceFeatureExtract system/surfaceFeatureExtract_FRDict",
          "surfaceFeatureExtract system/surfaceFeatureExtract_RLDict",
          "surfaceFeatureExtract system/surfaceFeatureExtract_RRDict"],
          false, some "Surface feature extraction",
          ["Simulation failed at step: Surface feature extraction"]⟩ := by
        simp [runFullSimulation, runStepsGo, pipelineSteps, runBlockMesh, h0,
          runAllSurfaceFeatureExtract, runAllSFEGo, sfeDicts,
          runSurfaceFeatureExtract, s0, s1, s2, s3, s4]
      rw [hrun]
      refine ⟨rfl, rfl, ?_, ?_, by decide⟩
      · intro j hj1 hj2 cmd hcmd
        interval_cases j <;> revert cmd <;> decide
      · intro i j hij hj hsfei
        interval_cases j <;> interval_cases i <;>
          first
            | decide
            | (revert hsfei; simp [sfeDicts, s0, s1, s2, s3])
    case pos =>
      exfalso
      simp [sfeDicts, s0, s1, s2, s3, s4] at h1
  · -- stage 2 (snappyHexMesh) fails
    have h0 : env.blockMesh = true := by
      simpa [stageOks] using hpre 0 (by omega)
    have h1 : sfeDicts.all env.surfaceFeatureExtract = true := by
      simpa [stageOks] using hpre 1 (by omega)
    have h2 : env.snappyHexMesh = false := by simpa [stageOks] using hfail
    have hsfe := runAllSFEGo_all_true env sfeDicts (List.all_eq_true.mp h1)
    simp only [sfeDicts] at hsfe
    have hrun : runFullSimulation env = ⟨["blockMesh",
        "surfaceFeatureExtract system/surfaceFeatureExtract_mainBodyDict",
        "surfaceFeatureExtract system/surfaceFeatureExtract_FLDict",
        "surfaceFeatureExtract system/surfaceFeatureExtract_FRDict",
        "surfaceFeatureExtract system/surfaceFeatureExtract_RLDict",
        "surfaceFeatureExtract system/surfaceFeatureExtract_RRDict",
        "snappyHexMesh"],
        false, some "Mesh generation",
        ["Simulation failed at step: Mesh generation"]⟩ := by
      simp [runFullSimulation, runStepsGo, pipelineSteps, runBlockMesh, h0,
        runAllSurfaceFeatureExtract, hsfe, runSnappyHexMesh, h2, sfeDicts]
    rw [hrun]
    refine ⟨rfl, rfl, ?_, ?_, by decide⟩
    · intro j hj1 hj2 cmd hcmd
      interval_cases j <;> revert cmd <;> decide
    · intro i j hij hj hsfei
      have hall := List.all_eq_true.mp h1
      have hi5 : i < 5 := by omega
      exfalso
      interval_cases i <;> simp [sfeDicts] at hsfei <;>
        (rw [hall _ (by decide)] at hsfei; exact Bool.noConfusion hsfei)
  · -- stage 3 (decomposePar) fails
    have h0 : env.blockMesh = true := by
      simpa [stageOks] using hpre 0 (by omega)
    have h1 : sfeDicts.all env.surfaceFeatureExtract = true := by
      simpa [stageOks] using hpre 1 (by omega)
    have h2 : env.snappyHexMesh = true := by
      simpa [stageOks] using hpre 2 (by omega)
    have h3 : env.decomposePar = false := by simpa [stageOks] using hfail
    have hsfe := runAllSFEGo_all_true env sfeDicts (List.all_eq_true.mp h1)
    simp only [sfeDicts] at hsfe
    have hrun : runFullSimulation env = ⟨["blockMesh",
        "surfaceFeatureExtract system/surfaceFeatureExtract_mainBodyDict",
        "surfaceFeatureExtract system/surfaceFeatureExtract_FLDict",
        "surfaceFeatureExtract system/surfaceFeatureExtract_FRDict",
        "surfaceFeatureExtract system/surfaceFeatureExtract_RLDict",
        "surfaceFeatureExtract system/surfaceFeatureExtract_RRDict",
        "snappyHexMesh", "decomposePar"],
        false, some "Case decomposition",
        ["Simulation failed at step: Case decomposition"]⟩ := by
      simp [runFullSimulation, runStepsGo, pipelineSteps, runBlockMesh, h0,
        runAllSurfaceFeatureExtract, hsfe, runSnappyHexMesh, h2,
        decomposeCase, h3, sfeDicts]
    rw [hrun]
    refine ⟨rfl, rfl, ?_, ?_, by decide⟩
    · intro j hj1 hj2 cmd hcmd
      interval_cases j <;> revert cmd <;> decide
    · intro i j hij hj hsfei
      have hall := List.all_eq_true.mp h1
      have hi5 : i < 5 := by omega
      exfalso
      interval_cases i <;> simp [sfeDicts] at hsfei <;>
        (rw [hall _ (by decide)] at hsfei; exact Bool.noConfusion hsfei)
  · -- stage 4 (parallel simpleFoam) fails
    have h0 : env.blockMesh = true := by
      simpa [stageOks] using hpre 0 (by omega)
    have h1 : sfeDicts.all env.surfaceFeatureExtract = true := by
      simpa [stageOks] using hpre 1 (by omega)
    have h2 : env.snappyHexMesh = true := by
      simpa [stageOks] using hpre 2 (by omega)
    have h3 : env.decomposePar = true := by
      simpa [stageOks] using hpre 3 (by omega)
    have h4 : env.simpleFoam = false := by simpa [stageOks] using hfail
    have hsfe := runAllSFEGo_all_true env sfeDicts (List.all_eq_true.mp h1)
    simp only [sfeDicts] at hsfe
    have hrun : runFullSimulation env = ⟨["blockMesh",
        "surfaceFeatureExtract system/surfaceFeatureExtract_mainBodyDict",
        "surfaceFeatureExtract system/surfaceFeatureExtract_FLDict",
        "surfaceFeatureExtract system/surfaceFeatureExtract_FRDict",
        "surfaceFeatureExtract system/surfaceFeatureExtract_RLDict",
        "surfaceFeatureExtract system/surfaceFeatureExtract_RRDict",
        "snappyHexMesh", "decomposePar", "mpirun simpleFoam"],
        false, some "Parallel solver",
        ["Simulation failed at step: Parallel solver"]⟩ := by
      simp [runFullSimulation, runStepsGo, pipelineSteps, runBlockMesh, h0,
        runAllSurfaceFeatureExtract, hsfe, runSnappyHexMesh, h2,
        decomposeCase, h3, runParallelSimpleFoam, h4, sfeDicts]
    rw [hrun]
    refine ⟨rfl, rfl, ?_, ?_, by decide⟩
    · intro j hj1 hj2 cmd hcmd
      interval_cases j <;> revert cmd <;> decide
    · intro i j hij hj hsfei
      have hall := List.all_eq_true.mp h1
      have hi5 : i < 5 := by omega
      exfalso
      interval_cases i <;> simp [sfeDicts] at hsfei <;>
        (rw [hall _ (by decide)] at hsfei; exact Bool.noConfusion hsfei)
  · -- stage 5 (reconstructPar) fails
    have h0 : env.blockMesh = true := by
      simpa [stageOks] using hpre 0 (by omega)
    have h1 : sfeDicts.all env.surfaceFeatureExtract = true := by
      simpa [stageOks] using hpre 1 (by omega)
    have h2 : env.snappyHexMesh = true := by
      simpa [stageOks] using hpre 2 (by omega)
    have h3 : env.decomposePar = true := by
      simpa [stageOks] using hpre 3 (by omega)
    have h4 : env.simpleFoam = true := by
      simpa [stageOks] using hpre 4 (by omega)
    have h5 : env.reconstructPar = false := by simpa [stageOks] using hfail
    have hsfe := runAllSFEGo_all_true env sfeDicts (List.all_eq_true.mp h1)
    simp only [sfeDicts] at hsfe
    have hrun : runFullSimulation env = ⟨["blockMesh",
        "surfaceFeatureExtract system/surfaceFeatureExtract_mainBodyDict",
        "surfaceFeatureExtract system/surfaceFeatureExtract_FLDict",
        "surfaceFeatureExtract system/surfaceFeatureExtract_FRDict",
        "surfaceFeatureExtract system/surfaceFeatureExtract_RLDict",
        "surfaceFeatureExtract system/surfaceFeatureExtract_RRDict",
        "snappyHexMesh", "decomposePar", "mpirun simpleFoam",
        "reconstructPar"],
        false, some "Case reconstruction",
        ["Simulation failed at step: Case reconstruction"]⟩ := by
      simp [runFullSimulation, runStepsGo, pipelineSteps, runBlockMesh, h0,
        runAllSurfaceFeatureExtract, hsfe, runSnappyHexMesh, h2,
        decomposeCase, h3, runParallelSimpleFoam, h4, reconstructCase, h5,
        sfeDicts]
    rw [hrun]
    refine ⟨rfl, rfl, ?_, ?_, by decide⟩
    · intro j hj1 hj2 cmd hcmd
      omega
    · intro i j hij hj hsfei
      have hall := List.all_eq_true.mp h1
      have hi5 : i < 5 := by omega
      exfalso
      interval_cases i <;> simp [sfeDicts] at hsfei <;>
        (rw [hall _ (by decide)] at hsfei; exact Bool.noConfusion hsfei)

/-- Witness for `pipeline_short_circuit`: mesh refinement (stage 2)
fails; stages 3–5 are never invoked and the failure names
`Mesh generation`. -/
theorem pipeline_short_circuit_witness :
    (runFullSimulation ⟨true, fun _ => true, false, true, true, true⟩).failedStep
        = some (stageNames.getD 2 "") ∧
    (runFullSimulation ⟨true, fun _ => true, false, true, true, true⟩).success
        = false ∧
    (∀ j, 2 < j → j < 6 → ∀ cmd ∈ stageCmds.getD j [],
      cmd ∉ (runFullSimulation
        ⟨true, fun _ => true, false, true, true, true⟩).trace) ∧
    (∀ i j, i < j → j < 5 →
      (⟨true, fun _ => true, false, true, true, true⟩ :
          ExecEnv).surfaceFeatureExtract (sfeDicts.getD i "") = false →
      ("surfaceFeatureExtract " ++ sfeDicts.getD j "")
        ∉ (runFullSimulation
          ⟨true, fun _ => true, false, true, true, true⟩).trace) ∧
    (runFullSimulation
      ⟨true, fun _ => true, false, true, true, true⟩).trace.Nodup :=
  pipeline_short_circuit ⟨true, fun _ => true, false, true, true, true⟩ 2
    (by decide) (by decide) (by decide)

/-! ## C5: elapsed-time reporting -/

/-- C5 counterexample: on a failed (aborted) run, the elapsed time is
not reported — the only outcome message is the failing-step line.
Here the first stage fails and `Total time elapsed` is absent from the
output. -/
theorem elapsed_not_reported_on_failure_cx :
    (runFullSimulation
      ⟨false, fun _ => true, true, true, true, true⟩).success = false ∧
    "Total time elapsed" ∉
      (runFullSimulation ⟨false, fun _ => true, true, true, true, true⟩).log := by
  decide

/-- C5 amended: the wall-clock measurement starts before the first
stage, but the elapsed time is reported only when the last stage
completes: the elapsed-time message appears in the output if and only
if the run succeeds, while a failed run reports only the failing
stage. -/
theorem elapsed_reported_iff_success (env : ExecEnv) :
    ("Total time elapsed" ∈ (runFullSimulation env).log
      ↔ (runFullSimulation env).success = true) ∧
    (∀ name, (runFullSimulation env).failedStep = some name →
      ("Simulation failed at step: " ++ name) ∈ (runFullSimulation env).log) := by
  have hs : (runFullSimulation env).success
      = (runStepsGo env pipelineSteps).2.isNone := rfl
  have hf : (runFullSimulation env).failedStep
      = (runStepsGo env pipelineSteps).2 := rfl
  have hl : (runFullSimulation env).log
      = (match (runStepsGo env pipelineSteps).2 with
        | some name => ["Simulation failed at step: " ++ name]
        | none => ["Full simulation completed successfully",
                   "Total time elapsed"]) := rfl
  rw [hs, hf, hl]
  cases h2 : (runStepsGo env pipelineSteps).2 with
  | none =>
    constructor
    · simp
    · intro name hn
      exact absurd hn (by simp)
  | some name0 =>
    constructor
    · constructor
      · intro hm
        exfalso
        rw [List.mem_singleton] at hm
        have h4 := congrArg String.data hm
        rw [String.data_append] at h4
        have h5 := congrArg List.length h4
        rw [List.length_append] at h5
        have l1 : ("Total time elapsed".data).length = 18 := by decide
        have l2 : ("Simulation failed at step: ".data).length = 27 := by decide
        omega
      · intro hsucc
        simp at hsucc
    · intro name hn
      have hname : name0 = name := by injection hn
      rw [List.mem_singleton, hname]

/-- Witness for `elapsed_reported_iff_success` at a run failing in
stage 2: no elapsed-time message, and the failing-stage message is
present. -/
theorem elapsed_reported_iff_success_witness :
    "Total time elapsed" ∉
      (runFullSimulation ⟨true, fun _ => true, false, true, true, true⟩).log ∧
    ("Simulation failed at step: " ++ "Mesh generation") ∈
      (runFullSimulation ⟨true, fun _ => true, false, true, true, true⟩).log := by
  constructor
  · intro hm
    have h := (elapsed_reported_iff_success
      ⟨true, fun _ => true, false, true, true, true⟩).1.mp hm
    revert h
    decide
  · exact (elapsed_reported_iff_success
      ⟨true, fun _ => true, false, true, true, true⟩).2 "Mesh generation"
      (by decide)

end HayabusaFlow
